import Mathlib

/-!
Verification of the FT_IRC server core against its specification.

The development shallowly embeds the C++ sources:
  * `src/client/client.cpp`   — framing (`Client::processData`), command
    parsing (`Client::parseAndHandleCommand`) and command handling
    (`Client::handleCommand`, `Client::completeRegistration`,
    `Client::joinChannel`, `Client::leaveChannel`, `Client::sendData`);
  * the channel implementation (`Channel::*`);
  * the server implementation (`Server::removeClient`, `Server::addClient`,
    `Server::createChannel`, `Server::removeChannel`, `Server::checkPassword`).

Machine strings are `String`/`List Char`; socket descriptors are `Nat`.
The per-connection input buffer is threaded explicitly through the read
path (`processData`): no command handler in the source ever reads or
writes `_buffer`, so this is an equivalent presentation.  All output
produced via `Client::sendData` is recorded in a per-client `outbox`
(the message text with the appended `"\r\n"`), which captures the exact
sequence of lines queued for a client.
-/

set_option autoImplicit false

namespace FtIrc

/-! ## Generic association-list primitives

`Server::_clients` is a `std::map<int, Client*>` and `Server::_channels` a
`std::map<std::string, Channel*>`.  They are modelled as association lists
with unique keys (uniqueness is part of the invariant `Inv` below). -/

/-- Lookup of a key in an association list (first matching entry). -/
def alookup {α β : Type} [DecidableEq α] : List (α × β) → α → Option β
  | [], _ => none
  | p :: t, k => if p.1 = k then some p.2 else alookup t k

/-- Pointwise update of the entry with the given key. -/
def aupdate {α β : Type} [DecidableEq α] (m : List (α × β)) (k : α) (f : β → β) :
    List (α × β) :=
  m.map (fun p => if p.1 = k then (p.1, f p.2) else p)

/-- Removal of the entry with the given key (`std::map::erase`). -/
def aerase {α β : Type} [DecidableEq α] : List (α × β) → α → List (α × β)
  | [], _ => []
  | p :: t, k => if p.1 = k then aerase t k else p :: aerase t k

section AssocLemmas

variable {α β : Type} [DecidableEq α]

@[simp] theorem alookup_nil (k : α) : alookup ([] : List (α × β)) k = none := rfl

theorem alookup_cons (p : α × β) (t : List (α × β)) (k : α) :
    alookup (p :: t) k = if p.1 = k then some p.2 else alookup t k := rfl

@[simp] theorem alookup_aupdate_self (m : List (α × β)) (k : α) (f : β → β) :
    alookup (aupdate m k f) k = (alookup m k).map f := by
  induction m with
  | nil => rfl
  | cons p t ih =>
    show alookup ((if p.1 = k then (p.1, f p.2) else p) :: aupdate t k f) k = _
    by_cases h : p.1 = k
    · simp [alookup_cons, h]
    · simp [alookup_cons, h, ih]

theorem alookup_aupdate_ne (m : List (α × β)) (k k' : α) (f : β → β) (h : k' ≠ k) :
    alookup (aupdate m k f) k' = alookup m k' := by
  induction m with
  | nil => rfl
  | cons p t ih =>
    show alookup ((if p.1 = k then (p.1, f p.2) else p) :: aupdate t k f) k' = _
    by_cases hp : p.1 = k
    · have hkk : ¬ k = k' := fun hh => h hh.symm
      simp [alookup_cons, hp, hkk, ih]
    · simp [alookup_cons, hp, ih]

@[simp] theorem alookup_aerase_self (m : List (α × β)) (k : α) :
    alookup (aerase m k) k = none := by
  induction m with
  | nil => rfl
  | cons p t ih =>
    by_cases h : p.1 = k <;> simp [aerase, alookup_cons, h, ih]

theorem alookup_aerase_ne (m : List (α × β)) (k k' : α) (h : k' ≠ k) :
    alookup (aerase m k) k' = alookup m k' := by
  induction m with
  | nil => rfl
  | cons p t ih =>
    by_cases hp : p.1 = k
    · have hkk : ¬ k = k' := fun hh => h hh.symm
      simp [aerase, alookup_cons, hp, hkk, ih]
    · simp [aerase, alookup_cons, hp, ih]

theorem alookup_append_of_none (m m' : List (α × β)) (k : α)
    (h : alookup m k = none) : alookup (m ++ m') k = alookup m' k := by
  induction m with
  | nil => rfl
  | cons p t ih =>
    by_cases hp : p.1 = k
    · simp [alookup_cons, hp] at h
    · simp [alookup_cons, hp] at h ⊢
      exact ih h

theorem alookup_append_of_some (m m' : List (α × β)) (k : α) {v : β}
    (h : alookup m k = some v) : alookup (m ++ m') k = some v := by
  induction m with
  | nil => simp [alookup] at h
  | cons p t ih =>
    by_cases hp : p.1 = k
    · simp [alookup_cons, hp] at h ⊢
      exact h
    · simp [alookup_cons, hp] at h ⊢
      exact ih h

theorem alookup_eq_none_iff (m : List (α × β)) (k : α) :
    alookup m k = none ↔ k ∉ m.map Prod.fst := by
  induction m with
  | nil => simp
  | cons p t ih =>
    rw [alookup_cons]
    rcases eq_or_ne p.1 k with h | h
    · subst h
      simp [List.mem_cons]
    · rw [if_neg h, ih]
      constructor
      · intro hh hmem
        rcases List.mem_cons.mp hmem with hmem | hmem
        · exact h hmem.symm
        · exact hh hmem
      · intro hh hmem
        exact hh (List.mem_cons.mpr (Or.inr hmem))

theorem alookup_isSome_iff (m : List (α × β)) (k : α) :
    (alookup m k).isSome = true ↔ k ∈ m.map Prod.fst := by
  rw [← Decidable.not_iff_not, ← alookup_eq_none_iff]
  cases alookup m k <;> simp

theorem aupdate_of_not_mem (m : List (α × β)) (k : α) (f : β → β)
    (h : k ∉ m.map Prod.fst) : aupdate m k f = m := by
  induction m with
  | nil => rfl
  | cons p t ih =>
    have h1 : ¬ k = p.1 := fun hh => h (by rw [hh]; exact List.mem_cons_self _ _)
    have h2 : k ∉ t.map Prod.fst := fun hh => h (List.mem_cons_of_mem _ hh)
    have hcond : ¬ p.1 = k := fun hh => h1 hh.symm
    show (if p.1 = k then (p.1, f p.2) else p) :: aupdate t k f = p :: t
    rw [if_neg hcond, ih h2]

theorem mem_of_alookup_eq_some (m : List (α × β)) (k : α) {v : β}
    (h : alookup m k = some v) : (k, v) ∈ m := by
  induction m with
  | nil => simp [alookup] at h
  | cons p t ih =>
    by_cases hp : p.1 = k
    · rcases p with ⟨a, b⟩
      dsimp at hp
      subst hp
      simp [alookup_cons] at h
      subst h
      exact List.mem_cons_self _ _
    · simp [alookup_cons, hp] at h
      exact List.mem_cons_of_mem _ (ih h)

theorem alookup_eq_some_of_mem (m : List (α × β)) {k : α} {v : β}
    (hnd : (m.map Prod.fst).Nodup) (h : (k, v) ∈ m) : alookup m k = some v := by
  induction m with
  | nil => simp at h
  | cons p t ih =>
    have hnd1 : p.1 ∉ t.map Prod.fst := (List.nodup_cons.mp hnd).1
    have hnd2 : (t.map Prod.fst).Nodup := (List.nodup_cons.mp hnd).2
    rcases List.mem_cons.mp h with h | h
    · rw [← h]
      simp [alookup_cons]
    · have hne : p.1 ≠ k := fun hk =>
        hnd1 (by rw [hk]; exact List.mem_map_of_mem Prod.fst h)
      rw [alookup_cons, if_neg hne]
      exact ih hnd2 h

@[simp] theorem aupdate_keys (m : List (α × β)) (k : α) (f : β → β) :
    (aupdate m k f).map Prod.fst = m.map Prod.fst := by
  induction m with
  | nil => rfl
  | cons p t ih =>
    by_cases h : p.1 = k <;> simp [aupdate, h] at ih ⊢ <;> simpa [aupdate] using ih

theorem aerase_sublist (m : List (α × β)) (k : α) : (aerase m k).Sublist m := by
  induction m with
  | nil => simp [aerase]
  | cons p t ih =>
    by_cases h : p.1 = k <;> simp [aerase, h]
    · exact ih.cons _
    · exact ih

theorem aerase_keys_nodup (m : List (α × β)) (k : α)
    (h : (m.map Prod.fst).Nodup) : ((aerase m k).map Prod.fst).Nodup :=
  ((aerase_sublist m k).map Prod.fst).nodup h

theorem mem_aerase (m : List (α × β)) (k : α) {p : α × β}
    (h : p ∈ aerase m k) : p ∈ m ∧ p.1 ≠ k := by
  induction m with
  | nil => simp [aerase] at h
  | cons q t ih =>
    by_cases hq : q.1 = k
    · simp [aerase, hq] at h
      exact ⟨List.mem_cons_of_mem _ (ih h).1, (ih h).2⟩
    · simp [aerase, hq] at h
      rcases h with h | h
      · exact ⟨by simp [h], by rw [h]; exact hq⟩
      · exact ⟨List.mem_cons_of_mem _ (ih h).1, (ih h).2⟩

end AssocLemmas

/-! ## Line framing

`Client::processData` repeatedly executes `_buffer.find("\r\n")` and
`substr`/`erase` to cut complete frames off the front of the input buffer.
`splitPair x y` models `find` of a two-character needle: it returns the part
of the list strictly before the first occurrence of `x` immediately followed
by `y`, together with the part strictly after that occurrence. -/

/-- Splits a character list at the first occurrence of the adjacent pair
`x y`, mirroring `std::string::find` of a two-character needle. -/
def splitPair (x y : Char) : List Char → Option (List Char × List Char)
  | [] => none
  | c :: rest =>
    if c = x ∧ rest.head? = some y then
      some ([], rest.tail)
    else
      (splitPair x y rest).map (fun p => (c :: p.1, p.2))

theorem splitPair_nil (x y : Char) : splitPair x y [] = none := rfl

theorem splitPair_cons (x y c : Char) (rest : List Char) :
    splitPair x y (c :: rest) =
      if c = x ∧ rest.head? = some y then some ([], rest.tail)
      else (splitPair x y rest).map (fun p => (c :: p.1, p.2)) := rfl

/-- The suffix returned by `splitPair` is strictly shorter than the input. -/
theorem splitPair_length {x y : Char} :
    ∀ {l : List Char} {a b : List Char},
      splitPair x y l = some (a, b) → b.length < l.length := by
  intro l
  induction l with
  | nil => intro a b h; simp [splitPair_nil] at h
  | cons c rest ih =>
    intro a b h
    rw [splitPair_cons] at h
    by_cases hc : c = x ∧ rest.head? = some y
    · rw [if_pos hc] at h
      obtain ⟨rfl, rfl⟩ : ([] : List Char) = a ∧ rest.tail = b := by
        constructor <;> (cases h; rfl)
      have : rest.tail.length ≤ rest.length := by
        cases rest <;> simp
      simp only [List.length_cons]
      omega
    · rw [if_neg hc] at h
      rcases hsp : splitPair x y rest with _ | ⟨a', b'⟩
      · rw [hsp] at h; simp at h
      · rw [hsp] at h
        simp at h
        have := ih hsp
        rw [← h.2]
        simp only [List.length_cons]
        omega

/-- A list without the pair has no pair in any of its prefixes. -/
theorem splitPair_none_of_append {x y : Char} {a b : List Char}
    (h : splitPair x y (a ++ b) = none) : splitPair x y a = none := by
  induction a with
  | nil => rfl
  | cons c r ih =>
    rw [List.cons_append, splitPair_cons] at h
    by_cases hc : c = x ∧ (r ++ b).head? = some y
    · rw [if_pos hc] at h; simp at h
    · rw [if_neg hc] at h
      have hr : splitPair x y (r ++ b) = none := by
        rcases hsp : splitPair x y (r ++ b) with _ | p
        · rfl
        · rw [hsp] at h; simp at h
      have hnone := ih hr
      rw [splitPair_cons]
      have hcond : ¬ (c = x ∧ r.head? = some y) := by
        intro ⟨h1, h2⟩
        apply hc
        refine ⟨h1, ?_⟩
        cases r with
        | nil => simp at h2
        | cons d r' => simpa using h2
      rw [if_neg hcond, hnone]
      rfl

/-- Appending the first pair character alone cannot create the pair
(needs `x ≠ y`). -/
theorem splitPair_snoc_x {x y : Char} (hxy : x ≠ y) :
    ∀ {l : List Char}, splitPair x y l = none → splitPair x y (l ++ [x]) = none := by
  intro l
  induction l with
  | nil =>
    intro _
    rw [List.nil_append, splitPair_cons]
    have : ¬ (x = x ∧ ([] : List Char).head? = some y) := by simp
    rw [if_neg this]
    rfl
  | cons c r ih =>
    intro h
    rw [splitPair_cons] at h
    by_cases hc : c = x ∧ r.head? = some y
    · rw [if_pos hc] at h; simp at h
    · rw [if_neg hc] at h
      have hr : splitPair x y r = none := by
        rcases hsp : splitPair x y r with _ | p
        · rfl
        · rw [hsp] at h; simp at h
      rw [List.cons_append, splitPair_cons]
      have hcond : ¬ (c = x ∧ (r ++ [x]).head? = some y) := by
        intro ⟨h1, h2⟩
        cases r with
        | nil => simp at h2; exact hxy h2
        | cons d r' => exact hc ⟨h1, by simpa using h2⟩
      rw [if_neg hcond, ih hr]
      rfl

/-- Finding the pair right after a pair-free prefix (needs `x ≠ y`). -/
theorem splitPair_append_pair {x y : Char} (hxy : x ≠ y) :
    ∀ {l : List Char} (r : List Char), splitPair x y l = none →
      splitPair x y (l ++ x :: y :: r) = some (l, r) := by
  intro l
  induction l with
  | nil =>
    intro r _
    rw [List.nil_append, splitPair_cons]
    have : x = x ∧ (y :: r).head? = some y := by simp
    rw [if_pos this]
    rfl
  | cons c t ih =>
    intro r h
    rw [splitPair_cons] at h
    by_cases hc : c = x ∧ t.head? = some y
    · rw [if_pos hc] at h; simp at h
    · rw [if_neg hc] at h
      have ht : splitPair x y t = none := by
        rcases hsp : splitPair x y t with _ | p
        · rfl
        · rw [hsp] at h; simp at h
      rw [List.cons_append, splitPair_cons]
      have hcond : ¬ (c = x ∧ (t ++ x :: y :: r).head? = some y) := by
        intro ⟨h1, h2⟩
        cases t with
        | nil => simp at h2; exact hxy h2
        | cons d t' => exact hc ⟨h1, by simpa using h2⟩
      rw [if_neg hcond, ih r ht]
      rfl

/-- The loop `while ((pos = _buffer.find("\r\n")) != npos)` of
`Client::processData`: extracts every complete `\r\n`-terminated line (without
its terminator) and returns the remaining partial frame. -/
def extractLines (buf : List Char) : List (List Char) × List Char :=
  match h : splitPair '\r' '\n' buf with
  | none => ([], buf)
  | some (l, r) =>
    let p := extractLines r
    (l :: p.1, p.2)
termination_by buf.length
decreasing_by exact splitPair_length h

theorem extractLines_of_none {buf : List Char}
    (h : splitPair '\r' '\n' buf = none) : extractLines buf = ([], buf) := by
  rw [extractLines, h]

theorem extractLines_of_some {buf l r : List Char}
    (h : splitPair '\r' '\n' buf = some (l, r)) :
    extractLines buf = (l :: (extractLines r).1, (extractLines r).2) := by
  rw [extractLines, h]

/-! ## Command parsing (`Client::parseAndHandleCommand`) -/

/-- Whitespace as classified by `std::istream >> std::string`
(the `istringstream` extraction used for parameter splitting). -/
def isWSpace (c : Char) : Bool :=
  c == ' ' || c == '\t' || c == '\n' || c == '\x0b' || c == '\x0c' || c == '\r'

/-- Whitespace-separated tokens, as produced by repeated
`iss >> param` extraction: empty tokens never appear. -/
def wsSplit (l : List Char) : List (List Char) :=
  match l with
  | [] => []
  | c :: rest =>
    if isWSpace c then wsSplit rest
    else (c :: rest.takeWhile (fun d => !(isWSpace d))) ::
      wsSplit (rest.dropWhile (fun d => !(isWSpace d)))
termination_by l.length
decreasing_by
  · simp
  · have := (List.dropWhile_sublist (l := rest) (fun d => !(isWSpace d))).length_le
    simp
    omega

/-- ASCII upper-casing of one character (`::toupper` under the "C" locale,
as applied by `std::transform` to the command). -/
def upChar (c : Char) : Char :=
  if 'a' ≤ c ∧ c ≤ 'z' then Char.ofNat (c.toNat - 32) else c

/-- Parsing of one non-empty framed line, mirroring
`Client::parseAndHandleCommand`: an optional `:prefix` is discarded (a
prefix with no following space drops the whole frame, result `none`); the
command is upper-cased; parameters are space-split, with a trailing
parameter introduced by the first `" :"` taken verbatim. -/
def parseLine (line : List Char) : Option (String × List String) :=
  let body? : Option (List Char) :=
    if line.head? = some ':' then
      -- `size_t prefixEnd = line.find(' ');` — the head is ':', so the first
      -- space of the line is the first space after the head
      let afterAt := (line.drop 1).dropWhile (fun c => !(c == ' '))
      if afterAt = [] then
        none  -- `return; // Invalid format`
      else
        -- `start = prefixEnd + 1; while (line[start] == ' ') start++;`
        some (afterAt.dropWhile (fun c => c == ' '))
    else
      some line
  match body? with
  | none => none
  | some body =>
    -- `size_t cmdEnd = line.find(' ', start);`
    let fromSpace := body.dropWhile (fun c => !(c == ' '))
    if fromSpace = [] then
      -- `command = line.substr(start);` — no parameters are extracted
      some (String.mk (body.map upChar), [])
    else
      let cmd := body.takeWhile (fun c => !(c == ' '))
      -- `paramStart = cmdEnd + 1; while (line[paramStart] == ' ') paramStart++;`
      let region := fromSpace.dropWhile (fun c => c == ' ')
      -- `size_t trailingStart = line.find(" :", paramStart);`
      let params :=
        match splitPair ' ' ':' region with
        | some (normal, trailing) =>
          (wsSplit normal).map String.mk ++ [String.mk trailing]
        | none => (wsSplit region).map String.mk
      some (String.mk (cmd.map upChar), params)

/-! ## Server state model

`Client` fields follow `client.hpp` (`_buffer` is threaded separately
through the read path, and `outbox` records the exact sequence of strings
queued by `Client::sendData`, each with its appended `"\r\n"`). -/

structure ClientState where
  nickname : String
  username : String
  hostname : String
  authenticated : Bool
  isOp : Bool
  disconnected : Bool
  channels : List String
  outbox : List String
  deriving DecidableEq, Repr

/-- A freshly accepted client (`Client::Client`). -/
def newClient : ClientState :=
  { nickname := "", username := "", hostname := "", authenticated := false,
    isOp := false, disconnected := false, channels := [], outbox := [] }

/-- `Channel` fields follow `channels.hpp`; clients are referenced by their
socket descriptor (the stable handle resolved through the server). -/
structure ChannelState where
  topic : String
  password : String
  clients : List Nat
  operators : List Nat
  userLimit : Nat
  inviteOnly : Bool
  topicRestricted : Bool
  invited : List Nat
  deriving DecidableEq, Repr

/-- `Channel::addClient`: append to the roster unless already present. -/
def ChannelState.addClient (ch : ChannelState) (fd : Nat) : ChannelState :=
  if fd ∈ ch.clients then ch else { ch with clients := ch.clients ++ [fd] }

/-- `Channel::removeClient`: erase from the roster and from the operator
set. -/
def ChannelState.removeClient (ch : ChannelState) (fd : Nat) : ChannelState :=
  { ch with clients := ch.clients.erase fd, operators := ch.operators.erase fd }

/-- `Channel::addOperator`: only roster members can be made operators. -/
def ChannelState.addOperator (ch : ChannelState) (fd : Nat) : ChannelState :=
  if fd ∈ ch.clients then
    (if fd ∈ ch.operators then ch else { ch with operators := ch.operators ++ [fd] })
  else ch

/-- `Channel::Channel(name, creator)`: empty topic/password, no limit, not
invite-only, topic restricted; the creator is added as first client and
operator. -/
def newChannel (creator : Nat) : ChannelState :=
  ((({ topic := "", password := "", clients := [], operators := [],
       userLimit := 0, inviteOnly := false, topicRestricted := true,
       invited := [] } : ChannelState).addClient creator).addOperator creator)

structure ServerState where
  password : String
  clients : List (Nat × ClientState)
  channels : List (String × ChannelState)
  deriving DecidableEq, Repr

def updateClient (s : ServerState) (fd : Nat) (f : ClientState → ClientState) :
    ServerState :=
  { s with clients := aupdate s.clients fd f }

def updateChannel (s : ServerState) (name : String)
    (f : ChannelState → ChannelState) : ServerState :=
  { s with channels := aupdate s.channels name f }

/-- `Client::sendData`: a disconnected client is skipped; otherwise the
message plus `"\r\n"` is queued.  (Whether bytes leave through the
immediate `send` or through `_outgoingMessages` is a socket-level detail;
the queued byte sequence is the same.) -/
def sendData (s : ServerState) (fd : Nat) (msg : String) : ServerState :=
  updateClient s fd (fun c =>
    if c.disconnected then c else { c with outbox := c.outbox ++ [msg ++ "\r\n"] })

/-- `Client::setDisconnected`. -/
def setDisconnectedS (s : ServerState) (fd : Nat) : ServerState :=
  updateClient s fd (fun c => { c with disconnected := true })

/-- `Channel::broadcastMessage`: `sendData` on every roster member, in
roster order. -/
def broadcastTo (s : ServerState) (roster : List Nat) (msg : String) :
    ServerState :=
  roster.foldl (fun acc m => sendData acc m msg) s

def nickOf (s : ServerState) (fd : Nat) : String :=
  match alookup s.clients fd with
  | some c => c.nickname
  | none => ""

/-- `Channel::getNamesList`: roster order, `@` before operators, a space
after every nickname. -/
def getNamesList (s : ServerState) (ch : ChannelState) : String :=
  String.join (ch.clients.map (fun m =>
    (if m ∈ ch.operators then "@" else "") ++ nickOf s m ++ " "))

/-- `Channel::getModeString`. -/
def getModeString (ch : ChannelState) : String :=
  let modes := "+" ++ (if ch.inviteOnly then "i" else "")
    ++ (if ch.topicRestricted then "t" else "")
    ++ (if ch.password ≠ "" then "k" else "")
    ++ (if ch.userLimit > 0 then "l" else "")
  let ps := (if ch.password ≠ "" then " " ++ ch.password else "")
    ++ (if ch.userLimit > 0 then " " ++ toString ch.userLimit else "")
  modes ++ ps

/-- `Client::joinChannel`: if the channel is not in the client's list, add
it there and add the client to the channel's roster. -/
def joinChannel (s : ServerState) (fd : Nat) (name : String) : ServerState :=
  match alookup s.clients fd with
  | none => s
  | some c =>
    if name ∈ c.channels then s
    else
      updateChannel
        (updateClient s fd (fun c => { c with channels := c.channels ++ [name] }))
        name (fun ch => ch.addClient fd)

/-- `Client::leaveChannel`: if the channel is in the client's list, erase
it there and remove the client from the channel's roster and operators. -/
def leaveChannel (s : ServerState) (fd : Nat) (name : String) : ServerState :=
  match alookup s.clients fd with
  | none => s
  | some c =>
    if name ∈ c.channels then
      updateChannel
        (updateClient s fd (fun c => { c with channels := c.channels.erase name }))
        name (fun ch => ch.removeClient fd)
    else s

/-- `Server::removeChannel`: deleting the `Channel` runs its destructor,
which makes every remaining roster member leave; then the map entry is
erased.  (It is only ever invoked on channels with an empty roster.) -/
def removeChannel (s : ServerState) (name : String) : ServerState :=
  match alookup s.channels name with
  | none => s
  | some ch =>
    let s₁ := ch.clients.foldl (fun acc m => leaveChannel acc m name) s
    { s₁ with channels := aerase s₁.channels name }

/-- `Server::createChannel`: returns the existing channel if the name is
taken, otherwise inserts a fresh `Channel(name, creator)`. -/
def createChannel (s : ServerState) (name : String) (creator : Nat) :
    ServerState :=
  match alookup s.channels name with
  | some _ => s
  | none => { s with channels := s.channels ++ [(name, newChannel creator)] }

/-- `Server::addClient` (new connection accepted): a fresh descriptor is
mapped to a fresh `Client`.  The kernel never hands out a descriptor that
is still in use, hence the guard. -/
def acceptClient (s : ServerState) (fd : Nat) : ServerState :=
  if (alookup s.clients fd).isSome then s
  else { s with clients := s.clients ++ [(fd, newClient)] }

/-- `Client::completeRegistration`: set `_authenticated` and queue the
welcome numerics 001, 002, 003, 004 and 422, in this order. -/
def completeRegistration (s : ServerState) (fd : Nat) : ServerState :=
  match alookup s.clients fd with
  | none => s
  | some _ =>
    let s₁ := updateClient s fd (fun c => { c with authenticated := true })
    let c := (alookup s₁.clients fd).getD newClient
    let s₂ := sendData s₁ fd ("001 " ++ c.nickname ++
      " :Welcome to the Internet Relay Network " ++ c.nickname ++ "!" ++
      c.username ++ "@host")
    let s₃ := sendData s₂ fd ("002 " ++ c.nickname ++
      " :Your host is ft_irc, running version 1.0")
    let s₄ := sendData s₃ fd ("003 " ++ c.nickname ++
      " :This server was created today")
    let s₅ := sendData s₄ fd ("004 " ++ c.nickname ++ " ft_irc 1.0 o o")
    sendData s₅ fd ("422 " ++ c.nickname ++ " :MOTD File is missing")

/-! ## Command handling (`Client::handleCommand`)

The C++ handler opens with `bool _passwordValidated = false;` — a LOCAL
variable, freshly initialised on every call (the member of the same name is
commented out in `client.hpp`).  The branches below receive that local
explicitly where they read it; the dispatcher always passes `false`. -/

/-- PASS branch of `Client::handleCommand`.  A correct password only sets
the function-local `_passwordValidated`, which is discarded when the
handler returns, so it has no observable effect. -/
def handlePASS (s : ServerState) (fd : Nat) (me : ClientState)
    (params : List String) : ServerState :=
  if me.authenticated then sendData s fd "462 :You may not reregister"
  else if params.length < 1 then sendData s fd "461 PASS :Not enough parameters"
  else if params.getD 0 "" = s.password then
    s
  else
    setDisconnectedS (sendData s fd "464 :Password incorrect") fd

/-- TOPIC branch of `Client::handleCommand`. -/
def handleTOPIC (s : ServerState) (fd : Nat) (me : ClientState)
    (params : List String) : ServerState :=
  if params.length < 1 then
    sendData s fd ("461 " ++ me.nickname ++ " TOPIC :Not enough parameters")
  else
    let channelName := params.getD 0 ""
    match alookup s.channels channelName with
    | none =>
      sendData s fd ("403 " ++ me.nickname ++ " " ++ channelName ++
        " :No such channel")
    | some ch =>
      if channelName ∉ me.channels then
        sendData s fd ("442 " ++ me.nickname ++ " " ++ channelName ++
          " :You're not on that channel")
      else if params.length = 1 then
        if ch.topic ≠ "" then
          sendData s fd ("332 " ++ me.nickname ++ " " ++ channelName ++ " :" ++
            ch.topic)
        else
          sendData s fd ("331 " ++ me.nickname ++ " " ++ channelName ++
            " :No topic is set")
      else if ch.topicRestricted ∧ fd ∉ ch.operators then
        sendData s fd ("482 " ++ me.nickname ++ " " ++ channelName ++
          " :You're not channel operator")
      else
        let s₁ := updateChannel s channelName
          (fun c => { c with topic := params.getD 1 "" })
        broadcastTo s₁ ch.clients (":" ++ me.nickname ++ "!" ++ me.username ++
          "@host TOPIC " ++ channelName ++ " :" ++ params.getD 1 "")

/-- The character set accepted in nicknames
(`find_first_not_of` argument in the NICK branch). -/
def nickChars : List Char :=
  "abcdefghijklmnopqrstuvwxyzABCDEFGHIJKLMNOPQRSTUVWXYZ0123456789[]\\`_^\x7b|\x7d".toList

/-- The erroneous-nickname test of the NICK branch: empty, longer than 9,
or containing a character outside `nickChars`. -/
def nickErroneous (n : String) : Bool :=
  n == "" || decide (n.length > 9) || !(n.toList.all (fun c => nickChars.contains c))

/-- NICK branch of `Client::handleCommand`.  `passwordValidated` is the
caller's local flag; in the source it is always `false` here, so the
`completeRegistration` call is unreachable.  There is no in-use check
(`// TODO: Check if nickname is already in use`) and no reply on success. -/
def handleNICK (s : ServerState) (fd : Nat) (me : ClientState)
    (passwordValidated : Bool) (params : List String) : ServerState :=
  if params.length < 1 then sendData s fd "431 :No nickname given"
  else
    let newNick := params.getD 0 ""
    if nickErroneous newNick then
      sendData s fd ("432 " ++ newNick ++ " :Erroneous nickname")
    else
      let s₁ := updateClient s fd (fun c => { c with nickname := newNick })
      if me.username ≠ "" ∧ passwordValidated = true ∧ me.authenticated = false
      then completeRegistration s₁ fd
      else s₁

/-- USER branch of `Client::handleCommand`.  Since `passwordValidated` is
the function-local flag and always `false`, an unauthenticated USER always
receives `464 :Password required`; the code below the check is dead. -/
def handleUSER (s : ServerState) (fd : Nat) (me : ClientState)
    (passwordValidated : Bool) (params : List String) : ServerState :=
  if me.authenticated then sendData s fd "462 :You may not reregister"
  else if passwordValidated = false then sendData s fd "464 :Password required"
  else if params.length < 4 then sendData s fd "461 USER :Not enough parameters"
  else
    let s₁ := updateClient s fd (fun c => { c with username := params.getD 0 "" })
    if me.nickname ≠ "" then completeRegistration s₁ fd else s₁

/-- JOIN branch of `Client::handleCommand`.  `channelName[0]` on an empty
string reads the terminating NUL, which is not `'#'`, so an empty name also
takes the 403 branch. -/
def handleJOIN (s : ServerState) (fd : Nat) (me : ClientState)
    (params : List String) : ServerState :=
  if params.length < 1 then
    sendData s fd ("461 " ++ me.nickname ++ " JOIN :Not enough parameters")
  else
    let channelName := params.getD 0 ""
    if channelName.toList.head? ≠ some '#' then
      sendData s fd ("403 " ++ me.nickname ++ " " ++ channelName ++
        " :No such channel")
    else
      let s₁ := createChannel s channelName fd
      let s₂ := joinChannel s₁ fd channelName
      let ch := (alookup s₂.channels channelName).getD (newChannel fd)
      let s₃ := broadcastTo s₂ ch.clients (":" ++ me.nickname ++ "!" ++
        me.username ++ "@host JOIN " ++ channelName)
      let s₄ :=
        if ch.topic ≠ "" then
          sendData s₃ fd ("332 " ++ me.nickname ++ " " ++ channelName ++ " :" ++
            ch.topic)
        else
          sendData s₃ fd ("331 " ++ me.nickname ++ " " ++ channelName ++
            " :No topic is set")
      let s₅ := sendData s₄ fd ("353 " ++ me.nickname ++ " = " ++ channelName ++
        " :" ++ getNamesList s₄ ch)
      sendData s₅ fd ("366 " ++ me.nickname ++ " " ++ channelName ++
        " :End of /NAMES list")

/-- `Client::handleCommand`: the authentication gate guards exactly JOIN,
PRIVMSG, PART, MODE, TOPIC and INVITE; then the `if/else if` chain
dispatches PASS, TOPIC, NICK, USER and JOIN.  Any other command (QUIT and
PRIVMSG/PART/MODE/INVITE included) has no handler and falls through with
no effect. -/
def handleCommand (s : ServerState) (fd : Nat) (cmd : String)
    (params : List String) : ServerState :=
  match alookup s.clients fd with
  | none => s
  | some me =>
    -- `bool _passwordValidated = false;`
    let passwordValidated := false
    if (cmd = "JOIN" ∨ cmd = "PRIVMSG" ∨ cmd = "PART" ∨ cmd = "MODE" ∨
        cmd = "TOPIC" ∨ cmd = "INVITE") ∧ me.authenticated = false then
      sendData s fd "451 :You have not registered"
    else if cmd = "PASS" then handlePASS s fd me params
    else if cmd = "TOPIC" then handleTOPIC s fd me params
    else if cmd = "NICK" then handleNICK s fd me passwordValidated params
    else if cmd = "USER" then handleUSER s fd me passwordValidated params
    else if cmd = "JOIN" then handleJOIN s fd me params
    else s

/-- One iteration of the channel loop in `Server::removeClient`: broadcast
the QUIT message to the channel, leave it, and collect the channel if its
roster drained.  (The `none` branch cannot arise for the channels of a
well-formed client; the C++ dereferences a live pointer there.) -/
def quitStep (fd : Nat) (quitMsg : String) (acc : ServerState)
    (name : String) : ServerState :=
  match alookup acc.channels name with
  | none => acc
  | some ch =>
    let acc₁ := broadcastTo acc ch.clients quitMsg
    let acc₂ := leaveChannel acc₁ fd name
    match alookup acc₂.channels name with
    | some ch₂ => if ch₂.clients = [] then removeChannel acc₂ name else acc₂
    | none => acc₂

/-- `Server::removeClient` (the variant with QUIT propagation): for every
channel in a snapshot of the client's list, run `quitStep`; then delete
the client (its destructor would leave any channels still listed) and
drop it from the table. -/
def removeClient (s : ServerState) (fd : Nat) : ServerState :=
  match alookup s.clients fd with
  | none => s
  | some c =>
    let quitMsg := ":" ++ c.nickname ++ "!" ++ c.username ++
      "@host QUIT :Connection closed"
    let s₁ := c.channels.foldl (quitStep fd quitMsg) s
    let s₂ := ((alookup s₁.clients fd).getD newClient).channels.foldl
      (fun acc name => leaveChannel acc fd name) s₁
    { s₂ with clients := aerase s₂.clients fd }

/-! ## The read path (`Client::receiveData` / `Client::processData`) -/

/-- The lines handed to `parseAndHandleCommand` by one `processData` run:
empty lines are skipped, and frames dropped by the parser produce no
command. -/
def parsedOf (lines : List (List Char)) : List (String × List String) :=
  (lines.filter (fun l => !l.isEmpty)).filterMap parseLine

def dispatchCmds (s : ServerState) (fd : Nat)
    (cmds : List (String × List String)) : ServerState :=
  cmds.foldl (fun acc p => handleCommand acc fd p.1 p.2) s

/-- `Client::processData` on a given input buffer: extract and dispatch
every complete frame (the C++ erases each frame from `_buffer` before
dispatching it; handlers never touch `_buffer`, so the net effect is
dispatch-then-keep-the-remainder), then apply the 8192-byte overflow
guard to what is left: send the ERROR line and clear the buffer.  No
disconnection happens on overflow.  The third component records the
`(command, parameters)` pairs dispatched during this run. -/
def processData (s : ServerState) (fd : Nat) (buf : List Char) :
    ServerState × List Char × List (String × List String) :=
  let p := extractLines buf
  let cmds := parsedOf p.1
  let s₁ := dispatchCmds s fd cmds
  if p.2.length > 8192 then
    (sendData s₁ fd "ERROR :Client exceeded buffer size limit", [], cmds)
  else
    (s₁, p.2, cmds)

/-- Feeding a sequence of TCP segments through `Client::receiveData`: each
segment is appended to the buffer and `processData` runs.  The accumulator
collects every `(command, parameters)` pair dispatched, in order. -/
def feedSegs (s : ServerState) (fd : Nat) (buf : List Char)
    (acc : List (String × List String)) :
    List (List Char) → ServerState × List Char × List (String × List String)
  | [] => (s, buf, acc)
  | seg :: segs =>
    let r := processData s fd (buf ++ seg)
    feedSegs r.1 fd r.2.1 (acc ++ r.2.2) segs

/-! ## Event-level operations for the membership invariants -/

/-- The operations of claims C2 and C9: a connection is accepted, a client
issues JOIN (with arbitrary parameters), or a client disconnects (QUIT /
peer hangup — both run `Server::removeClient`). -/
inductive NetOp where
  | accept (fd : Nat)
  | join (fd : Nat) (params : List String)
  | disconnect (fd : Nat)

def applyOp (s : ServerState) : NetOp → ServerState
  | .accept fd => acceptClient s fd
  | .join fd ps => handleCommand s fd "JOIN" ps
  | .disconnect fd => removeClient s fd

def applyOps (s : ServerState) (ops : List NetOp) : ServerState :=
  ops.foldl applyOp s

/-! ## Concrete scenario states -/

/-- A freshly connected, unregistered client on a server whose password is
`secret`. -/
def regSrv : ServerState :=
  { password := "secret", clients := [(1, newClient)], channels := [] }

/-- The C1 registration scenario: `PASS secret`, `NICK alice`,
`USER alice 0 * :Alice`, each in its own frame. -/
def regAfterUSER : ServerState :=
  handleCommand
    (handleCommand (handleCommand regSrv 1 "PASS" ["secret"]) 1 "NICK" ["alice"])
    1 "USER" ["alice", "0", "*", "Alice"]

/-- C1: the registration state machine is broken in the source:
`_passwordValidated` is a local of `handleCommand` initialised to `false`
on every call, so the flag set by a correct PASS is discarded.  The USER
command therefore always answers `464 :Password required`, and after
`PASS secret; NICK alice; USER alice 0 * :Alice` (server password
`secret`) the client is NOT registered and never receives 001/002/003/
004/422.  This contradicts the claimed happy path; the client's full
output after the three commands is the single 464 line. -/
theorem C1_registration_never_completes :
    (alookup regAfterUSER.clients 1).map
        (fun c => (c.authenticated, c.nickname, c.outbox)) =
      some (false, "alice", ["464 :Password required\r\n"]) := by
  decide

/-- A server with client 1 already holding nickname `alice` and client 2
freshly connected. -/
def dupNickSrv : ServerState :=
  { password := "p",
    clients := [(1, { newClient with nickname := "alice" }), (2, newClient)],
    channels := [] }

/-- C5: nickname uniqueness is not enforced (the source carries
`// TODO: Check if nickname is already in use`).  When client 2 issues
`NICK alice` while client 1 already holds `alice`, the command succeeds
silently: both clients then hold the nickname `alice` simultaneously, no
433 (or any) reply is sent to client 2. -/
theorem C5_duplicate_nick_accepted :
    (alookup (handleCommand dupNickSrv 2 "NICK" ["alice"]).clients 1).map
        (fun c => c.nickname) = some "alice" ∧
    (alookup (handleCommand dupNickSrv 2 "NICK" ["alice"]).clients 2).map
        (fun c => (c.nickname, c.outbox)) = some ("alice", []) := by
  constructor <;> decide

/-- C10: a NICK command with a syntactically valid nickname from an
already-registered client succeeds silently: the whole server state is
unchanged except that the issuing client's nickname is overwritten.  In
particular no numeric (433, 462 or otherwise) is queued for anybody and
nothing is broadcast, because the resulting state is literally an
`updateClient` of the nickname field only. -/
theorem C10_nick_overwrite_silent (s : ServerState) (fd : Nat) (c : ClientState)
    (nick : String) (hc : alookup s.clients fd = some c)
    (hauth : c.authenticated = true) (hvalid : nickErroneous nick = false) :
    handleCommand s fd "NICK" [nick] =
      updateClient s fd (fun cl => { cl with nickname := nick }) := by
  simp [handleCommand, hc, handleNICK, hvalid]

/-- Witness for C10 at a concrete state: client 7 is registered as `bob`
and renames to `joe`. -/
def regBob : ClientState :=
  { newClient with nickname := "bob", username := "bob", authenticated := true }

def nickWSrv : ServerState :=
  { password := "p", clients := [(7, regBob)], channels := [] }

theorem C10_nick_overwrite_silent_witness :
    alookup nickWSrv.clients 7 = some regBob ∧
    regBob.authenticated = true ∧
    nickErroneous "joe" = false ∧
    handleCommand nickWSrv 7 "NICK" ["joe"] =
      updateClient nickWSrv 7 (fun cl => { cl with nickname := "joe" }) :=
  ⟨by decide, by decide, by decide,
    C10_nick_overwrite_silent nickWSrv 7 regBob "joe" (by decide) (by decide)
      (by decide)⟩

@[simp] theorem sendData_channels (s : ServerState) (fd : Nat) (msg : String) :
    (sendData s fd msg).channels = s.channels := rfl

@[simp] theorem sendData_password (s : ServerState) (fd : Nat) (msg : String) :
    (sendData s fd msg).password = s.password := rfl

/-- C3 (amended): the authentication gate of `Client::handleCommand` covers
exactly the six commands JOIN, PRIVMSG, PART, MODE, TOPIC and INVITE.  For
those, an unregistered client receives `451 :You have not registered` and
the resulting state is exactly a `sendData` of that line — in particular
no channel state is mutated. -/
theorem C3_gate_451_for_gated_commands (s : ServerState) (fd : Nat)
    (c : ClientState) (cmd : String) (params : List String)
    (hc : alookup s.clients fd = some c) (hauth : c.authenticated = false)
    (hcmd : cmd = "JOIN" ∨ cmd = "PRIVMSG" ∨ cmd = "PART" ∨ cmd = "MODE" ∨
      cmd = "TOPIC" ∨ cmd = "INVITE") :
    handleCommand s fd cmd params = sendData s fd "451 :You have not registered" ∧
    (handleCommand s fd cmd params).channels = s.channels := by
  have hmain : handleCommand s fd cmd params =
      sendData s fd "451 :You have not registered" := by
    simp only [handleCommand, hc]
    rw [if_pos ⟨hcmd, hauth⟩]
  exact ⟨hmain, by rw [hmain]; rfl⟩

/-- Witness for C3 (amended): client 1 of `regSrv` is unregistered and
issues `MODE`. -/
theorem C3_gate_451_for_gated_commands_witness :
    alookup regSrv.clients 1 = some newClient ∧
    newClient.authenticated = false ∧
    (handleCommand regSrv 1 "MODE" ["#x"] =
        sendData regSrv 1 "451 :You have not registered" ∧
      (handleCommand regSrv 1 "MODE" ["#x"]).channels = regSrv.channels) :=
  ⟨by decide, by decide,
    C3_gate_451_for_gated_commands regSrv 1 newClient "MODE" ["#x"]
      (by decide) (by decide) (by simp)⟩

/-- Counterexample to C3 as stated: `LIST` is not PASS/NICK/USER/QUIT, yet
an unregistered client issuing it is not answered with 451 — the command
has no handler at all and the state (every outbox included) is completely
unchanged. -/
theorem C3_counterexample_unknown_command :
    handleCommand regSrv 1 "LIST" [] = regSrv := by
  decide

theorem splitPair_replicate_none (c : Char) (hne : ¬ c = '\r') :
    ∀ n : Nat, splitPair '\r' '\n' (List.replicate n c) = none := by
  intro n
  induction n with
  | zero => rfl
  | succ k ih =>
    rw [List.replicate_succ, splitPair_cons]
    have : ¬ (c = '\r' ∧ (List.replicate k c).head? = some '\n') :=
      fun hh => hne hh.1
    rw [if_neg this, ih]
    rfl

/-- C4 (amended): when the buffer exceeds 8192 bytes without containing a
complete frame, `processData` queues the line
`ERROR :Client exceeded buffer size limit` for the client and clears the
buffer — but it does NOT mark the client disconnected (there is no
`setDisconnected()` call on this path), so the connection stays open. -/
theorem C4_buffer_cap_error_no_disconnect (s : ServerState) (fd : Nat)
    (c : ClientState) (buf : List Char) (hc : alookup s.clients fd = some c)
    (hdis : c.disconnected = false)
    (hnone : splitPair '\r' '\n' buf = none) (hlen : buf.length > 8192) :
    processData s fd buf =
      (sendData s fd "ERROR :Client exceeded buffer size limit", [], []) ∧
    alookup (processData s fd buf).1.clients fd =
      some { c with outbox :=
        c.outbox ++ ["ERROR :Client exceeded buffer size limit\r\n"] } ∧
    (alookup (processData s fd buf).1.clients fd).map (fun x => x.disconnected) =
      some false := by
  have hmain : processData s fd buf =
      (sendData s fd "ERROR :Client exceeded buffer size limit", [], []) := by
    simp [processData, extractLines_of_none hnone, parsedOf, dispatchCmds, hlen]
  have hlook : alookup (processData s fd buf).1.clients fd =
      some { c with outbox :=
        c.outbox ++ ["ERROR :Client exceeded buffer size limit\r\n"] } := by
    rw [hmain]
    simp only [sendData, updateClient]
    rw [alookup_aupdate_self, hc]
    simp [hdis]
  refine ⟨hmain, hlook, ?_⟩
  rw [hlook]
  simp [hdis]

/-- Witness for C4 (amended) at a concrete 8193-byte pattern. -/
theorem C4_buffer_cap_error_no_disconnect_witness :
    alookup regSrv.clients 1 = some newClient ∧
    newClient.disconnected = false ∧
    splitPair '\r' '\n' (List.replicate 8193 'b') = none ∧
    (List.replicate 8193 'b').length > 8192 ∧
    processData regSrv 1 (List.replicate 8193 'b') =
      (sendData regSrv 1 "ERROR :Client exceeded buffer size limit", [], []) :=
  ⟨by decide, by decide, splitPair_replicate_none 'b' (by decide) 8193,
    by rw [List.length_replicate]; omega,
    (C4_buffer_cap_error_no_disconnect regSrv 1 newClient
      (List.replicate 8193 'b') (by decide) (by decide)
      (splitPair_replicate_none 'b' (by decide) 8193)
      (by rw [List.length_replicate]; omega)).1⟩

/-- Counterexample to C4 as stated: a client sends 9000 bytes with no
`\r\n`.  The ERROR line is queued and the buffer cleared, but the client's
`disconnected` flag is still `false` afterwards, contradicting the claimed
"marks the client disconnected (socket closed at end of iteration)". -/
theorem C4_counterexample_still_connected :
    (alookup (processData regSrv 1 (List.replicate 9000 'a')).1.clients 1).map
        (fun c => (c.disconnected, c.outbox)) =
      some (false, ["ERROR :Client exceeded buffer size limit\r\n"]) ∧
    (processData regSrv 1 (List.replicate 9000 'a')).2.1 = [] := by
  have hnone := splitPair_replicate_none 'a' (by decide) 9000
  have hlen : (List.replicate 9000 'a').length > 8192 := by
    rw [List.length_replicate]; omega
  have hmain : processData regSrv 1 (List.replicate 9000 'a') =
      (sendData regSrv 1 "ERROR :Client exceeded buffer size limit", [], []) := by
    rw [processData, extractLines_of_none hnone]
    simp only [parsedOf, List.filter_nil, List.filterMap_nil, dispatchCmds,
      List.foldl_nil]
    rw [if_pos hlen]
  rw [hmain]
  constructor
  · decide
  · rfl

/-! ## Lookup lemmas for `sendData` and `broadcastTo` -/

theorem alookup_sendData_self (s : ServerState) (fd : Nat) (msg : String) :
    alookup (sendData s fd msg).clients fd =
      (alookup s.clients fd).map (fun c =>
        if c.disconnected then c
        else { c with outbox := c.outbox ++ [msg ++ "\r\n"] }) := by
  simp [sendData, updateClient]

theorem alookup_sendData_ne (s : ServerState) (fd fd' : Nat) (msg : String)
    (h : fd' ≠ fd) :
    alookup (sendData s fd msg).clients fd' = alookup s.clients fd' := by
  simp only [sendData, updateClient]
  exact alookup_aupdate_ne _ _ _ _ h

@[simp] theorem broadcastTo_channels (roster : List Nat) (s : ServerState)
    (msg : String) : (broadcastTo s roster msg).channels = s.channels := by
  induction roster generalizing s with
  | nil => rfl
  | cons m rest ih => exact (ih (sendData s m msg)).trans rfl

@[simp] theorem broadcastTo_password (roster : List Nat) (s : ServerState)
    (msg : String) : (broadcastTo s roster msg).password = s.password := by
  induction roster generalizing s with
  | nil => rfl
  | cons m rest ih => exact (ih (sendData s m msg)).trans rfl

theorem alookup_broadcastTo_not_mem (roster : List Nat) (s : ServerState)
    (msg : String) (fd : Nat) (h : fd ∉ roster) :
    alookup (broadcastTo s roster msg).clients fd = alookup s.clients fd := by
  induction roster generalizing s with
  | nil => rfl
  | cons m rest ih =>
    have hm : fd ≠ m := fun hh => h (hh ▸ List.mem_cons_self m rest)
    have hrest : fd ∉ rest := fun hh => h (List.mem_cons_of_mem m hh)
    show alookup (broadcastTo (sendData s m msg) rest msg).clients fd = _
    rw [ih (sendData s m msg) hrest, alookup_sendData_ne s m fd msg hm]

theorem alookup_broadcastTo_mem (roster : List Nat) (s : ServerState)
    (msg : String) (fd : Nat) (hnd : roster.Nodup) (h : fd ∈ roster) :
    alookup (broadcastTo s roster msg).clients fd =
      (alookup s.clients fd).map (fun c =>
        if c.disconnected then c
        else { c with outbox := c.outbox ++ [msg ++ "\r\n"] }) := by
  induction roster generalizing s with
  | nil => simp at h
  | cons m rest ih =>
    have hnd1 : m ∉ rest := (List.nodup_cons.mp hnd).1
    have hnd2 : rest.Nodup := (List.nodup_cons.mp hnd).2
    show alookup (broadcastTo (sendData s m msg) rest msg).clients fd = _
    rcases List.mem_cons.mp h with rfl | hmem
    · rw [alookup_broadcastTo_not_mem rest (sendData s fd msg) msg fd hnd1]
      exact alookup_sendData_self s fd msg
    · have hne : fd ≠ m := fun hh => hnd1 (hh ▸ hmem)
      rw [ih (sendData s m msg) hnd2 hmem, alookup_sendData_ne s m fd msg hne]

/-- C6: TOPIC semantics for a registered client with at least two
parameters.  Channel missing: exactly the 403 reply.  Not a member:
exactly the 442 reply.  Member of a topic-restricted channel without
operator status: exactly the 482 reply, topic unchanged.  Otherwise the
topic becomes `params[1]` and every (connected) roster member receives the
`:<nick>!<user>@host TOPIC <channel> :<new-topic>` line. -/
theorem C6_topic_semantics (s : ServerState) (fd : Nat) (me : ClientState)
    (chName topicArg : String) (rest : List String)
    (hme : alookup s.clients fd = some me) (hauth : me.authenticated = true) :
    (alookup s.channels chName = none →
      handleCommand s fd "TOPIC" (chName :: topicArg :: rest) =
        sendData s fd ("403 " ++ me.nickname ++ " " ++ chName ++
          " :No such channel")) ∧
    (∀ ch, alookup s.channels chName = some ch → chName ∉ me.channels →
      handleCommand s fd "TOPIC" (chName :: topicArg :: rest) =
        sendData s fd ("442 " ++ me.nickname ++ " " ++ chName ++
          " :You're not on that channel")) ∧
    (∀ ch, alookup s.channels chName = some ch → chName ∈ me.channels →
      ch.topicRestricted = true → fd ∉ ch.operators →
      handleCommand s fd "TOPIC" (chName :: topicArg :: rest) =
        sendData s fd ("482 " ++ me.nickname ++ " " ++ chName ++
          " :You're not channel operator") ∧
      alookup (handleCommand s fd "TOPIC" (chName :: topicArg :: rest)).channels
        chName = some ch) ∧
    (∀ ch, alookup s.channels chName = some ch → chName ∈ me.channels →
      ¬ (ch.topicRestricted = true ∧ fd ∉ ch.operators) →
      alookup (handleCommand s fd "TOPIC" (chName :: topicArg :: rest)).channels
          chName = some { ch with topic := topicArg } ∧
      (ch.clients.Nodup → ∀ m ∈ ch.clients, ∀ cm,
        alookup s.clients m = some cm → cm.disconnected = false →
        alookup
            (handleCommand s fd "TOPIC" (chName :: topicArg :: rest)).clients m =
          some { cm with outbox := cm.outbox ++
            [":" ++ me.nickname ++ "!" ++ me.username ++ "@host TOPIC " ++
              chName ++ " :" ++ topicArg ++ "\r\n"] })) := by
  have hdisp : handleCommand s fd "TOPIC" (chName :: topicArg :: rest) =
      handleTOPIC s fd me (chName :: topicArg :: rest) := by
    simp [handleCommand, hme, hauth]
  have hlen1 : ¬ ((chName :: topicArg :: rest).length < 1) := by simp
  have hlen2 : ¬ ((chName :: topicArg :: rest).length = 1) := by simp
  refine ⟨?_, ?_, ?_, ?_⟩
  · intro hnone
    rw [hdisp, handleTOPIC, if_neg hlen1]
    simp only [List.getD_cons_zero, hnone]
  · intro ch hch hnotin
    rw [hdisp, handleTOPIC, if_neg hlen1]
    simp only [List.getD_cons_zero, hch]
    rw [if_pos hnotin]
  · intro ch hch hin htr hnop
    have hmain : handleCommand s fd "TOPIC" (chName :: topicArg :: rest) =
        sendData s fd ("482 " ++ me.nickname ++ " " ++ chName ++
          " :You're not channel operator") := by
      rw [hdisp, handleTOPIC, if_neg hlen1]
      simp only [List.getD_cons_zero, hch]
      rw [if_neg (by simp [hin]), if_neg hlen2, if_pos ⟨htr, hnop⟩]
    exact ⟨hmain, by rw [hmain, sendData_channels, hch]⟩
  · intro ch hch hin hok
    have hmain : handleCommand s fd "TOPIC" (chName :: topicArg :: rest) =
        broadcastTo
          (updateChannel s chName (fun c => { c with topic := topicArg }))
          ch.clients
          (":" ++ me.nickname ++ "!" ++ me.username ++ "@host TOPIC " ++
            chName ++ " :" ++ topicArg) := by
      rw [hdisp, handleTOPIC, if_neg hlen1]
      simp only [List.getD_cons_zero, List.getD_cons_succ, hch]
      rw [if_neg (by simp [hin]), if_neg hlen2, if_neg hok]
    constructor
    · rw [hmain, broadcastTo_channels]
      simp only [updateChannel]
      rw [alookup_aupdate_self, hch]
      rfl
    · intro hnd m hm cm hcm hcmdis
      rw [hmain, alookup_broadcastTo_mem ch.clients _ _ m hnd hm]
      have : alookup (updateChannel s chName
          (fun c => { c with topic := topicArg })).clients m = some cm := hcm
      rw [this]
      simp [hcmdis]

/-- Registered `alice` (operator and creator of `#lobby`). -/
def cAliceIn : ClientState :=
  { newClient with
    nickname := "alice", username := "alice",
    authenticated := true, channels := ["#lobby"] }

/-- Registered `bob`, also a member of `#lobby`. -/
def cBobIn : ClientState :=
  { newClient with
    nickname := "bob", username := "bob",
    authenticated := true, channels := ["#lobby"] }

/-- `#lobby` with roster `[1, 2]`, operator `1`, default modes. -/
def lobbyChan : ChannelState :=
  { topic := "", password := "", clients := [1, 2], operators := [1],
    userLimit := 0, inviteOnly := false, topicRestricted := true,
    invited := [] }

def lobbySrv : ServerState :=
  { password := "p", clients := [(1, cAliceIn), (2, cBobIn)],
    channels := [("#lobby", lobbyChan)] }

/-- Witness for C6: client 1 (`alice`, operator) writes the topic of
`#lobby` in `lobbySrv`. -/
theorem C6_topic_semantics_witness :
    alookup lobbySrv.clients 1 = some cAliceIn ∧
    cAliceIn.authenticated = true ∧
    ((alookup lobbySrv.channels "#lobby" = none →
      handleCommand lobbySrv 1 "TOPIC" ["#lobby", "hi"] =
        sendData lobbySrv 1 ("403 " ++ cAliceIn.nickname ++ " " ++ "#lobby" ++
          " :No such channel")) ∧
    (∀ ch, alookup lobbySrv.channels "#lobby" = some ch →
      "#lobby" ∉ cAliceIn.channels →
      handleCommand lobbySrv 1 "TOPIC" ["#lobby", "hi"] =
        sendData lobbySrv 1 ("442 " ++ cAliceIn.nickname ++ " " ++ "#lobby" ++
          " :You're not on that channel")) ∧
    (∀ ch, alookup lobbySrv.channels "#lobby" = some ch →
      "#lobby" ∈ cAliceIn.channels →
      ch.topicRestricted = true → 1 ∉ ch.operators →
      handleCommand lobbySrv 1 "TOPIC" ["#lobby", "hi"] =
        sendData lobbySrv 1 ("482 " ++ cAliceIn.nickname ++ " " ++ "#lobby" ++
          " :You're not channel operator") ∧
      alookup (handleCommand lobbySrv 1 "TOPIC" ["#lobby", "hi"]).channels
        "#lobby" = some ch) ∧
    (∀ ch, alookup lobbySrv.channels "#lobby" = some ch →
      "#lobby" ∈ cAliceIn.channels →
      ¬ (ch.topicRestricted = true ∧ 1 ∉ ch.operators) →
      alookup (handleCommand lobbySrv 1 "TOPIC" ["#lobby", "hi"]).channels
          "#lobby" = some { ch with topic := "hi" } ∧
      (ch.clients.Nodup → ∀ m ∈ ch.clients, ∀ cm,
        alookup lobbySrv.clients m = some cm → cm.disconnected = false →
        alookup (handleCommand lobbySrv 1 "TOPIC" ["#lobby", "hi"]).clients m =
          some { cm with outbox := cm.outbox ++
            [":" ++ cAliceIn.nickname ++ "!" ++ cAliceIn.username ++
              "@host TOPIC " ++ "#lobby" ++ " :" ++ "hi" ++ "\r\n"] }))) :=
  ⟨by decide, by decide,
    C6_topic_semantics lobbySrv 1 cAliceIn "#lobby" "hi" [] (by decide)
      (by decide)⟩

/-! ## Helper equations for the JOIN path -/

@[simp] theorem updateClient_channels (s : ServerState) (fd : Nat)
    (f : ClientState → ClientState) : (updateClient s fd f).channels = s.channels :=
  rfl

@[simp] theorem updateChannel_clients (s : ServerState) (name : String)
    (f : ChannelState → ChannelState) : (updateChannel s name f).clients = s.clients :=
  rfl

theorem newChannel_eq (x : Nat) :
    newChannel x =
      { topic := "", password := "", clients := [x], operators := [x],
        userLimit := 0, inviteOnly := false, topicRestricted := true,
        invited := [] } := by
  simp [newChannel, ChannelState.addClient, ChannelState.addOperator]

theorem createChannel_of_none {s : ServerState} {name : String} (x : Nat)
    (h : alookup s.channels name = none) :
    createChannel s name x =
      { s with channels := s.channels ++ [(name, newChannel x)] } := by
  rw [createChannel, h]

theorem createChannel_of_some {s : ServerState} {name : String} {ch : ChannelState}
    (x : Nat) (h : alookup s.channels name = some ch) :
    createChannel s name x = s := by
  rw [createChannel, h]

theorem joinChannel_of_mem {s : ServerState} {fd : Nat} {me : ClientState}
    {name : String} (hme : alookup s.clients fd = some me)
    (hmem : name ∈ me.channels) : joinChannel s fd name = s := by
  simp only [joinChannel, hme]
  rw [if_pos hmem]

theorem joinChannel_of_not_mem {s : ServerState} {fd : Nat} {me : ClientState}
    {name : String} (hme : alookup s.clients fd = some me)
    (hmem : name ∉ me.channels) :
    joinChannel s fd name =
      updateChannel
        (updateClient s fd (fun c => { c with channels := c.channels ++ [name] }))
        name (fun ch => ch.addClient fd) := by
  simp only [joinChannel, hme]
  rw [if_neg hmem]

@[simp] theorem broadcastTo_singleton (s : ServerState) (m : Nat) (msg : String) :
    broadcastTo s [m] msg = sendData s m msg := rfl

theorem newChannel_addClient (x : Nat) :
    (newChannel x).addClient x = newChannel x := by
  simp [newChannel_eq, ChannelState.addClient]

theorem sendData2_lookup (T : ServerState) (fd : Nat) (c : ClientState)
    (hc : alookup T.clients fd = some c) (hd : c.disconnected = false)
    (m1 m2 : String) :
    alookup (sendData (sendData T fd m1) fd m2).clients fd =
      some { c with outbox := c.outbox ++ [m1 ++ "\r\n", m2 ++ "\r\n"] } := by
  simp [alookup_sendData_self, hc, hd, List.append_assoc]

theorem join_tail_lookup (T : ServerState) (fd : Nat) (c : ClientState)
    (hc : alookup T.clients fd = some c) (hd : c.disconnected = false)
    (m1 m2 m3 m4 : String) :
    alookup
        (sendData (sendData (sendData (sendData T fd m1) fd m2) fd m3) fd
          m4).clients fd =
      some { c with outbox := c.outbox ++
        [m1 ++ "\r\n", m2 ++ "\r\n", m3 ++ "\r\n", m4 ++ "\r\n"] } := by
  simp [alookup_sendData_self, hc, hd, List.append_assoc]

theorem getNamesList_newChannel (S : ServerState) (x : Nat) (c : ClientState)
    (hx : alookup S.clients x = some c) :
    getNamesList S (newChannel x) = "@" ++ c.nickname ++ " " := by
  simp [getNamesList, newChannel_eq, nickOf, hx]
  rfl

/-- Joining a channel that does not yet exist: the channel is created with
the joiner as sole roster member and sole operator, the JOIN line is
broadcast (to the joiner, the only member), and the joiner receives 331
(no topic is set yet), 353 (names list `@<nick> `) and 366, in order. -/
theorem join_fresh_channel (s : ServerState) (fd : Nat) (me : ClientState)
    (chName : String) (rest : List String)
    (hme : alookup s.clients fd = some me) (hauth : me.authenticated = true)
    (hhash : chName.toList.head? = some '#')
    (hnone : alookup s.channels chName = none)
    (hnotin : chName ∉ me.channels) (hdis : me.disconnected = false) :
    alookup (handleCommand s fd "JOIN" (chName :: rest)).channels chName =
      some (newChannel fd) ∧
    alookup (handleCommand s fd "JOIN" (chName :: rest)).clients fd =
      some { me with
        channels := me.channels ++ [chName],
        outbox := me.outbox ++ [
          ":" ++ me.nickname ++ "!" ++ me.username ++ "@host JOIN " ++ chName ++
            "\r\n",
          "331 " ++ me.nickname ++ " " ++ chName ++ " :No topic is set" ++
            "\r\n",
          "353 " ++ me.nickname ++ " = " ++ chName ++ " :" ++
            ("@" ++ me.nickname ++ " ") ++ "\r\n",
          "366 " ++ me.nickname ++ " " ++ chName ++ " :End of /NAMES list" ++
            "\r\n"] } := by
  have hdisp : handleCommand s fd "JOIN" (chName :: rest) =
      handleJOIN s fd me (chName :: rest) := by
    simp [handleCommand, hme, hauth]
  have hlen : ¬ ((chName :: rest).length < 1) := by simp
  have hcond : ¬ (chName.toList.head? ≠ some '#') := fun hcc => hcc hhash
  have hS1me : alookup
      ({ s with channels := s.channels ++ [(chName, newChannel fd)] } :
        ServerState).clients fd = some me := hme
  have hlook2 : alookup (updateChannel
      (updateClient
        ({ s with channels := s.channels ++ [(chName, newChannel fd)] } :
          ServerState)
        fd (fun c => { c with channels := c.channels ++ [chName] }))
      chName (fun ch => ch.addClient fd)).channels chName =
      some (newChannel fd) := by
    simp only [updateChannel, updateClient]
    rw [alookup_aupdate_self, alookup_append_of_none _ _ _ hnone]
    simp [alookup_cons, newChannel_addClient]
  have hlookme : alookup (updateChannel
      (updateClient
        ({ s with channels := s.channels ++ [(chName, newChannel fd)] } :
          ServerState)
        fd (fun c => { c with channels := c.channels ++ [chName] }))
      chName (fun ch => ch.addClient fd)).clients fd =
      some { me with channels := me.channels ++ [chName] } := by
    simp only [updateChannel, updateClient]
    rw [alookup_aupdate_self, hme]
    rfl
  have hne : ¬ ((newChannel fd).topic ≠ "") := by simp [newChannel_eq]
  have hcl : (newChannel fd).clients = [fd] := by rw [newChannel_eq]
  constructor
  · rw [hdisp]
    simp only [handleJOIN, List.getD_cons_zero]
    rw [if_neg hlen, if_neg hcond, createChannel_of_none fd hnone,
      joinChannel_of_not_mem hS1me hnotin, hlook2]
    simp only [Option.getD_some, sendData_channels]
    rw [if_neg hne]
    simp only [sendData_channels, broadcastTo_channels]
    exact hlook2
  · rw [hdisp]
    simp only [handleJOIN, List.getD_cons_zero]
    rw [if_neg hlen, if_neg hcond, createChannel_of_none fd hnone,
      joinChannel_of_not_mem hS1me hnotin, hlook2]
    simp only [Option.getD_some]
    rw [if_neg hne, hcl]
    simp only [broadcastTo_singleton]
    have h4 := sendData2_lookup _ fd _ hlookme hdis
      (":" ++ me.nickname ++ "!" ++ me.username ++ "@host JOIN " ++ chName)
      ("331 " ++ me.nickname ++ " " ++ chName ++ " :No topic is set")
    have hnames := getNamesList_newChannel _ fd _ h4
    rw [join_tail_lookup _ fd _ hlookme hdis, hnames]

theorem sendData3_lookup (T : ServerState) (fd : Nat) (c : ClientState)
    (hc : alookup T.clients fd = some c) (hd : c.disconnected = false)
    (m2 m3 m4 : String) :
    alookup (sendData (sendData (sendData T fd m2) fd m3) fd m4).clients fd =
      some { c with outbox := c.outbox ++
        [m2 ++ "\r\n", m3 ++ "\r\n", m4 ++ "\r\n"] } := by
  simp [alookup_sendData_self, hc, hd, List.append_assoc]

theorem sendData3_lookup_ne (T : ServerState) (fd m : Nat) (hm : m ≠ fd)
    (m2 m3 m4 : String) :
    alookup (sendData (sendData (sendData T fd m2) fd m3) fd m4).clients m =
      alookup T.clients m := by
  rw [alookup_sendData_ne _ _ _ _ hm, alookup_sendData_ne _ _ _ _ hm,
    alookup_sendData_ne _ _ _ _ hm]

/-- Joining an existing channel: the joiner is appended to the roster only
if absent; the JOIN line is broadcast to every roster member including the
joiner; the joiner then receives 332 (or 331 when the topic is empty),
353 and 366, in this order. -/
theorem join_existing_channel (s : ServerState) (fd : Nat) (me : ClientState)
    (chName : String) (rest : List String) (ch : ChannelState)
    (hme : alookup s.clients fd = some me) (hauth : me.authenticated = true)
    (hhash : chName.toList.head? = some '#')
    (hch : alookup s.channels chName = some ch)
    (hiff : chName ∈ me.channels ↔ fd ∈ ch.clients)
    (hnd : ch.clients.Nodup) (hdis : me.disconnected = false) :
    alookup (handleCommand s fd "JOIN" (chName :: rest)).channels chName =
      some { ch with clients :=
        if fd ∈ ch.clients then ch.clients else ch.clients ++ [fd] } ∧
    (∃ names,
      alookup (handleCommand s fd "JOIN" (chName :: rest)).clients fd =
        some { me with
          channels := if chName ∈ me.channels then me.channels
            else me.channels ++ [chName],
          outbox := me.outbox ++ [
            ":" ++ me.nickname ++ "!" ++ me.username ++ "@host JOIN " ++
              chName ++ "\r\n",
            (if ch.topic ≠ "" then
              "332 " ++ me.nickname ++ " " ++ chName ++ " :" ++ ch.topic
             else
              "331 " ++ me.nickname ++ " " ++ chName ++ " :No topic is set") ++
              "\r\n",
            "353 " ++ me.nickname ++ " = " ++ chName ++ " :" ++ names ++ "\r\n",
            "366 " ++ me.nickname ++ " " ++ chName ++ " :End of /NAMES list" ++
              "\r\n"] }) ∧
    (∀ m, m ∈ ch.clients → m ≠ fd → ∀ cm, alookup s.clients m = some cm →
      alookup (handleCommand s fd "JOIN" (chName :: rest)).clients m =
        some (if cm.disconnected then cm else { cm with outbox := cm.outbox ++
          [":" ++ me.nickname ++ "!" ++ me.username ++ "@host JOIN " ++
            chName ++ "\r\n"] })) := by
  have hdisp : handleCommand s fd "JOIN" (chName :: rest) =
      handleJOIN s fd me (chName :: rest) := by
    simp [handleCommand, hme, hauth]
  have hlen : ¬ ((chName :: rest).length < 1) := by simp
  have hcond : ¬ (chName.toList.head? ≠ some '#') := fun hcc => hcc hhash
  by_cases hmem : chName ∈ me.channels
  · -- the joiner is already a roster member: the join itself is a no-op
    have hfd : fd ∈ ch.clients := hiff.mp hmem
    have hgetd : (alookup s.channels chName).getD (newChannel fd) = ch := by
      rw [hch]; rfl
    have hred : handleCommand s fd "JOIN" (chName :: rest) =
        (let s₃ := broadcastTo s ch.clients
          (":" ++ me.nickname ++ "!" ++ me.username ++ "@host JOIN " ++ chName)
         let s₄ :=
           if ch.topic ≠ "" then
             sendData s₃ fd ("332 " ++ me.nickname ++ " " ++ chName ++ " :" ++
               ch.topic)
           else
             sendData s₃ fd ("331 " ++ me.nickname ++ " " ++ chName ++
               " :No topic is set")
         let s₅ := sendData s₄ fd ("353 " ++ me.nickname ++ " = " ++ chName ++
           " :" ++ getNamesList s₄ ch)
         sendData s₅ fd ("366 " ++ me.nickname ++ " " ++ chName ++
           " :End of /NAMES list")) := by
      rw [hdisp]
      simp only [handleJOIN, List.getD_cons_zero]
      rw [if_neg hlen, if_neg hcond, createChannel_of_some fd hch,
        joinChannel_of_mem hme hmem, hgetd]
    refine ⟨?_, ?_, ?_⟩
    · rw [hred]
      simp only []
      by_cases htop : ch.topic ≠ "" <;>
        simp [htop, sendData_channels, broadcastTo_channels, hch, if_pos hfd]
    · have hbl : alookup (broadcastTo s ch.clients
          (":" ++ me.nickname ++ "!" ++ me.username ++ "@host JOIN " ++
            chName)).clients fd =
          some { me with outbox := me.outbox ++
            [":" ++ me.nickname ++ "!" ++ me.username ++ "@host JOIN " ++
              chName ++ "\r\n"] } := by
        rw [alookup_broadcastTo_mem ch.clients s _ fd hnd hfd, hme]
        simp [hdis]
      rw [hred]
      simp only []
      by_cases htop : ch.topic ≠ ""
      · rw [if_pos htop]
        refine ⟨getNamesList
          (sendData (broadcastTo s ch.clients
            (":" ++ me.nickname ++ "!" ++ me.username ++ "@host JOIN " ++
              chName))
            fd ("332 " ++ me.nickname ++ " " ++ chName ++ " :" ++ ch.topic))
          ch, ?_⟩
        rw [sendData3_lookup _ fd _ hbl hdis]
        simp [hmem, htop, List.append_assoc]
      · rw [if_neg htop]
        refine ⟨getNamesList
          (sendData (broadcastTo s ch.clients
            (":" ++ me.nickname ++ "!" ++ me.username ++ "@host JOIN " ++
              chName))
            fd ("331 " ++ me.nickname ++ " " ++ chName ++ " :No topic is set"))
          ch, ?_⟩
        rw [sendData3_lookup _ fd _ hbl hdis]
        simp [hmem, htop, List.append_assoc]
    · intro m hm hmfd cm hcm
      have hbl : alookup (broadcastTo s ch.clients
          (":" ++ me.nickname ++ "!" ++ me.username ++ "@host JOIN " ++
            chName)).clients m =
          some (if cm.disconnected then cm else { cm with outbox :=
            cm.outbox ++ [":" ++ me.nickname ++ "!" ++ me.username ++
              "@host JOIN " ++ chName ++ "\r\n"] }) := by
        rw [alookup_broadcastTo_mem ch.clients s _ m hnd hm, hcm]
        rfl
      rw [hred]
      simp only []
      by_cases htop : ch.topic ≠ ""
      · rw [if_pos htop, sendData3_lookup_ne _ fd m hmfd, hbl]
      · rw [if_neg htop, sendData3_lookup_ne _ fd m hmfd, hbl]
  · -- the joiner is appended to the roster
    have hfd : fd ∉ ch.clients := fun hh => hmem (hiff.mpr hh)
    have hlook2 : alookup (updateChannel
        (updateClient s fd (fun c => { c with channels := c.channels ++ [chName] }))
        chName (fun c => c.addClient fd)).channels chName =
        some { ch with clients := ch.clients ++ [fd] } := by
      simp only [updateChannel, updateClient]
      rw [alookup_aupdate_self, hch]
      simp [ChannelState.addClient, hfd]
    have hlookme : alookup (updateChannel
        (updateClient s fd (fun c => { c with channels := c.channels ++ [chName] }))
        chName (fun c => c.addClient fd)).clients fd =
        some { me with channels := me.channels ++ [chName] } := by
      simp only [updateChannel, updateClient]
      rw [alookup_aupdate_self, hme]
      rfl
    have hgetd : ∀ T : ServerState, alookup T.channels chName =
        some { ch with clients := ch.clients ++ [fd] } →
        (alookup T.channels chName).getD (newChannel fd) =
          { ch with clients := ch.clients ++ [fd] } := by
      intro T hT
      rw [hT]
      rfl
    have hnd2 : (ch.clients ++ [fd]).Nodup := by
      rw [List.nodup_append]
      exact ⟨hnd, List.nodup_singleton fd, by simp [List.disjoint_singleton, hfd]⟩
    have hred : handleCommand s fd "JOIN" (chName :: rest) =
        (let s₃ := broadcastTo
          (updateChannel (updateClient s fd
            (fun c => { c with channels := c.channels ++ [chName] }))
            chName (fun c => c.addClient fd))
          (ch.clients ++ [fd])
          (":" ++ me.nickname ++ "!" ++ me.username ++ "@host JOIN " ++ chName)
         let s₄ :=
           if ch.topic ≠ "" then
             sendData s₃ fd ("332 " ++ me.nickname ++ " " ++ chName ++ " :" ++
               ch.topic)
           else
             sendData s₃ fd ("331 " ++ me.nickname ++ " " ++ chName ++
               " :No topic is set")
         let s₅ := sendData s₄ fd ("353 " ++ me.nickname ++ " = " ++ chName ++
           " :" ++ getNamesList s₄ { ch with clients := ch.clients ++ [fd] })
         sendData s₅ fd ("366 " ++ me.nickname ++ " " ++ chName ++
           " :End of /NAMES list")) := by
      rw [hdisp]
      simp only [handleJOIN, List.getD_cons_zero]
      rw [if_neg hlen, if_neg hcond, createChannel_of_some fd hch,
        joinChannel_of_not_mem hme hmem, hlook2]
      rfl
    have hfdr : fd ∈ ch.clients ++ [fd] := by simp
    refine ⟨?_, ?_, ?_⟩
    · rw [hred]
      simp only []
      by_cases htop : ch.topic ≠ "" <;>
        simp [htop, sendData_channels, broadcastTo_channels, hlook2, hfd]
    · have hbl : alookup (broadcastTo
          (updateChannel (updateClient s fd
            (fun c => { c with channels := c.channels ++ [chName] }))
            chName (fun c => c.addClient fd))
          (ch.clients ++ [fd])
          (":" ++ me.nickname ++ "!" ++ me.username ++ "@host JOIN " ++
            chName)).clients fd =
          some { me with
            channels := me.channels ++ [chName],
            outbox := me.outbox ++
              [":" ++ me.nickname ++ "!" ++ me.username ++ "@host JOIN " ++
                chName ++ "\r\n"] } := by
        rw [alookup_broadcastTo_mem _ _ _ fd hnd2 hfdr, hlookme]
        simp [hdis]
      rw [hred]
      simp only []
      by_cases htop : ch.topic ≠ ""
      · rw [if_pos htop]
        refine ⟨getNamesList
          (sendData (broadcastTo
            (updateChannel (updateClient s fd
              (fun c => { c with channels := c.channels ++ [chName] }))
              chName (fun c => c.addClient fd))
            (ch.clients ++ [fd])
            (":" ++ me.nickname ++ "!" ++ me.username ++ "@host JOIN " ++
              chName))
            fd ("332 " ++ me.nickname ++ " " ++ chName ++ " :" ++ ch.topic))
          { ch with clients := ch.clients ++ [fd] }, ?_⟩
        rw [sendData3_lookup _ fd _ hbl hdis]
        simp [hmem, htop, List.append_assoc]
      · rw [if_neg htop]
        refine ⟨getNamesList
          (sendData (broadcastTo
            (updateChannel (updateClient s fd
              (fun c => { c with channels := c.channels ++ [chName] }))
              chName (fun c => c.addClient fd))
            (ch.clients ++ [fd])
            (":" ++ me.nickname ++ "!" ++ me.username ++ "@host JOIN " ++
              chName))
            fd ("331 " ++ me.nickname ++ " " ++ chName ++ " :No topic is set"))
          { ch with clients := ch.clients ++ [fd] }, ?_⟩
        rw [sendData3_lookup _ fd _ hbl hdis]
        simp [hmem, htop, List.append_assoc]
    · intro m hm hmfd cm hcm
      have hcm2 : alookup (updateChannel
          (updateClient s fd (fun c => { c with channels := c.channels ++ [chName] }))
          chName (fun c => c.addClient fd)).clients m = some cm := by
        simp only [updateChannel, updateClient]
        rw [alookup_aupdate_ne _ _ _ _ hmfd]
        exact hcm
      have hmr : m ∈ ch.clients ++ [fd] := List.mem_append_left _ hm
      have hbl : alookup (broadcastTo
          (updateChannel (updateClient s fd
            (fun c => { c with channels := c.channels ++ [chName] }))
            chName (fun c => c.addClient fd))
          (ch.clients ++ [fd])
          (":" ++ me.nickname ++ "!" ++ me.username ++ "@host JOIN " ++
            chName)).clients m =
          some (if cm.disconnected then cm else { cm with outbox :=
            cm.outbox ++ [":" ++ me.nickname ++ "!" ++ me.username ++
              "@host JOIN " ++ chName ++ "\r\n"] }) := by
        rw [alookup_broadcastTo_mem _ _ _ m hnd2 hmr, hcm2]
        rfl
      rw [hred]
      simp only []
      by_cases htop : ch.topic ≠ ""
      · rw [if_pos htop, sendData3_lookup_ne _ fd m hmfd, hbl]
      · rw [if_neg htop, sendData3_lookup_ne _ fd m hmfd, hbl]

/-- The full JOIN behaviour claimed for a registered client (claim C7), at
a given state and argument list: a name not starting with `#` draws 403
and changes nothing; a new name creates the channel with the joiner as
sole member and sole operator; in all successful cases the joiner is added
to the roster at most once, the JOIN line is broadcast to the whole roster
(joiner included), and the joiner receives 332/331, 353, 366 in order. -/
def JoinSpec (s : ServerState) (fd : Nat) (me : ClientState) (chName : String)
    (rest : List String) : Prop :=
  (chName.toList.head? ≠ some '#' →
    handleCommand s fd "JOIN" (chName :: rest) =
      sendData s fd ("403 " ++ me.nickname ++ " " ++ chName ++
        " :No such channel") ∧
    (handleCommand s fd "JOIN" (chName :: rest)).channels = s.channels) ∧
  (chName.toList.head? = some '#' → alookup s.channels chName = none →
    chName ∉ me.channels →
    alookup (handleCommand s fd "JOIN" (chName :: rest)).channels chName =
      some (newChannel fd) ∧
    (newChannel fd).clients = [fd] ∧
    (newChannel fd).operators = [fd] ∧
    alookup (handleCommand s fd "JOIN" (chName :: rest)).clients fd =
      some { me with
        channels := me.channels ++ [chName],
        outbox := me.outbox ++ [
          ":" ++ me.nickname ++ "!" ++ me.username ++ "@host JOIN " ++ chName ++
            "\r\n",
          "331 " ++ me.nickname ++ " " ++ chName ++ " :No topic is set" ++
            "\r\n",
          "353 " ++ me.nickname ++ " = " ++ chName ++ " :" ++
            ("@" ++ me.nickname ++ " ") ++ "\r\n",
          "366 " ++ me.nickname ++ " " ++ chName ++ " :End of /NAMES list" ++
            "\r\n"] }) ∧
  (chName.toList.head? = some '#' → ∀ ch, alookup s.channels chName = some ch →
    (chName ∈ me.channels ↔ fd ∈ ch.clients) → ch.clients.Nodup →
    alookup (handleCommand s fd "JOIN" (chName :: rest)).channels chName =
      some { ch with clients :=
        if fd ∈ ch.clients then ch.clients else ch.clients ++ [fd] } ∧
    (∃ names,
      alookup (handleCommand s fd "JOIN" (chName :: rest)).clients fd =
        some { me with
          channels := if chName ∈ me.channels then me.channels
            else me.channels ++ [chName],
          outbox := me.outbox ++ [
            ":" ++ me.nickname ++ "!" ++ me.username ++ "@host JOIN " ++
              chName ++ "\r\n",
            (if ch.topic ≠ "" then
              "332 " ++ me.nickname ++ " " ++ chName ++ " :" ++ ch.topic
             else
              "331 " ++ me.nickname ++ " " ++ chName ++ " :No topic is set") ++
              "\r\n",
            "353 " ++ me.nickname ++ " = " ++ chName ++ " :" ++ names ++ "\r\n",
            "366 " ++ me.nickname ++ " " ++ chName ++ " :End of /NAMES list" ++
              "\r\n"] }) ∧
    (∀ m, m ∈ ch.clients → m ≠ fd → ∀ cm, alookup s.clients m = some cm →
      alookup (handleCommand s fd "JOIN" (chName :: rest)).clients m =
        some (if cm.disconnected then cm else { cm with outbox := cm.outbox ++
          [":" ++ me.nickname ++ "!" ++ me.username ++ "@host JOIN " ++
            chName ++ "\r\n"] })))

/-- C7: JOIN semantics for a registered, connected client. -/
theorem C7_join_semantics (s : ServerState) (fd : Nat) (me : ClientState)
    (chName : String) (rest : List String)
    (hme : alookup s.clients fd = some me) (hauth : me.authenticated = true)
    (hdis : me.disconnected = false) :
    JoinSpec s fd me chName rest := by
  have hdisp : handleCommand s fd "JOIN" (chName :: rest) =
      handleJOIN s fd me (chName :: rest) := by
    simp [handleCommand, hme, hauth]
  have hlen : ¬ ((chName :: rest).length < 1) := by simp
  refine ⟨?_, ?_, ?_⟩
  · intro hbad
    have hmain : handleCommand s fd "JOIN" (chName :: rest) =
        sendData s fd ("403 " ++ me.nickname ++ " " ++ chName ++
          " :No such channel") := by
      rw [hdisp]
      simp only [handleJOIN, List.getD_cons_zero]
      rw [if_neg hlen, if_pos hbad]
    exact ⟨hmain, by rw [hmain]; rfl⟩
  · intro hhash hnone hnotin
    obtain ⟨h1, h2⟩ :=
      join_fresh_channel s fd me chName rest hme hauth hhash hnone hnotin hdis
    exact ⟨h1, by rw [newChannel_eq], by rw [newChannel_eq], h2⟩
  · intro hhash ch hch hiff hnd
    exact join_existing_channel s fd me chName rest ch hme hauth hhash hch
      hiff hnd hdis

/-- Witness for C7: `bob` (client 2 of `lobbySrv`) issuing `JOIN #new`. -/
theorem C7_join_semantics_witness :
    alookup lobbySrv.clients 2 = some cBobIn ∧
    cBobIn.authenticated = true ∧
    cBobIn.disconnected = false ∧
    JoinSpec lobbySrv 2 cBobIn "#new" [] :=
  ⟨by decide, by decide, by decide,
    C7_join_semantics lobbySrv 2 cBobIn "#new" [] (by decide) (by decide)
      (by decide)⟩

/-! ## The membership invariants (claims C2 and C9)

`Inv` packages well-formedness (unique keys, duplicate-free lists) with the
spec invariants I1 (bidirectional membership), the absence of dangling
references in either direction, and I4 (no empty channel in the registry).
All quantifiers are over list entries, so `Inv` is decidable on concrete
states. -/

def Inv (s : ServerState) : Prop :=
  (s.clients.map Prod.fst).Nodup ∧
  (s.channels.map Prod.fst).Nodup ∧
  (∀ p ∈ s.clients, p.2.channels.Nodup) ∧
  (∀ q ∈ s.channels, q.2.clients.Nodup) ∧
  (∀ p ∈ s.clients, ∀ q ∈ s.channels, (q.1 ∈ p.2.channels ↔ p.1 ∈ q.2.clients)) ∧
  (∀ p ∈ s.clients, ∀ nm ∈ p.2.channels, nm ∈ s.channels.map Prod.fst) ∧
  (∀ q ∈ s.channels, ∀ m ∈ q.2.clients, m ∈ s.clients.map Prod.fst) ∧
  (∀ q ∈ s.channels, q.2.clients ≠ [])

theorem mem_aupdate {α β : Type} [DecidableEq α] {m : List (α × β)} {k : α}
    {f : β → β} {p : α × β} (h : p ∈ aupdate m k f) :
    ∃ p₀ ∈ m, p = if p₀.1 = k then (p₀.1, f p₀.2) else p₀ := by
  rcases List.mem_map.mp h with ⟨p₀, hp₀, hq⟩
  exact ⟨p₀, hp₀, hq.symm⟩

theorem mem_aupdate_of_mem {α β : Type} [DecidableEq α] {m : List (α × β)}
    {k : α} (f : β → β) {p : α × β} (hp : p ∈ m) (hne : p.1 ≠ k) :
    p ∈ aupdate m k f := by
  have : (if p.1 = k then (p.1, f p.2) else p) ∈ aupdate m k f :=
    List.mem_map_of_mem _ hp
  rwa [if_neg hne] at this

theorem mem_aupdate_self {α β : Type} [DecidableEq α] {m : List (α × β)}
    {k : α} (f : β → β) {v : β} (hp : (k, v) ∈ m) :
    (k, f v) ∈ aupdate m k f := by
  have : (if (k, v).1 = k then ((k, v).1, f (k, v).2) else (k, v)) ∈
      aupdate m k f := List.mem_map_of_mem _ hp
  simpa using this

theorem entry_eq_of_alookup {α β : Type} [DecidableEq α] {m : List (α × β)}
    {k : α} {v w : β} (hnd : (m.map Prod.fst).Nodup)
    (hv : alookup m k = some v) (hw : (k, w) ∈ m) : w = v := by
  have := alookup_eq_some_of_mem m hnd hw
  rw [hv] at this
  exact (Option.some.injEq _ _ ▸ this.symm :)

theorem mem_aupdate_cases {α β : Type} [DecidableEq α] {m : List (α × β)}
    {k : α} {f : β → β} {v : β} {p : α × β}
    (hnd : (m.map Prod.fst).Nodup) (hv : alookup m k = some v)
    (hp : p ∈ aupdate m k f) : p = (k, f v) ∨ (p ∈ m ∧ p.1 ≠ k) := by
  rcases mem_aupdate hp with ⟨p₀, hp₀, rfl⟩
  by_cases hk : p₀.1 = k
  · left
    rw [if_pos hk]
    have : (k, p₀.2) ∈ m := by
      rcases p₀ with ⟨a, b⟩
      dsimp at hk
      rwa [hk] at hp₀
    rw [entry_eq_of_alookup hnd hv this, hk]
  · right
    rw [if_neg hk]
    exact ⟨hp₀, hk⟩

theorem mem_aerase_of {α β : Type} [DecidableEq α] {m : List (α × β)} {k : α}
    {p : α × β} (hp : p ∈ m) (hne : p.1 ≠ k) : p ∈ aerase m k := by
  induction m with
  | nil => simp at hp
  | cons q t ih =>
    rcases List.mem_cons.mp hp with rfl | hp
    · simp [aerase, if_neg hne]
    · by_cases hq : q.1 = k
      · simpa [aerase, hq] using ih hp
      · simp [aerase, hq]
        right
        exact ih hp

/-- Updating one client without touching its channel list preserves every
membership invariant. -/
theorem Inv_updateClient (s : ServerState) (fd : Nat)
    (f : ClientState → ClientState) (hf : ∀ c, (f c).channels = c.channels)
    (h : Inv s) : Inv (updateClient s fd f) := by
  obtain ⟨h1, h2, h3, h4, h5, h6, h7, h8⟩ := h
  have hch : ∀ p ∈ (updateClient s fd f).clients,
      ∃ p₀ ∈ s.clients, p.1 = p₀.1 ∧ p.2.channels = p₀.2.channels := by
    intro p hp
    rcases mem_aupdate hp with ⟨p₀, hp₀, rfl⟩
    exact ⟨p₀, hp₀, by by_cases hkk : p₀.1 = fd <;> simp [hkk, hf]⟩
  refine ⟨?_, h2, ?_, h4, ?_, ?_, ?_, h8⟩
  · show ((aupdate s.clients fd f).map Prod.fst).Nodup
    rw [aupdate_keys]
    exact h1
  · intro p hp
    obtain ⟨p₀, hp₀, _, hc⟩ := hch p hp
    rw [hc]
    exact h3 p₀ hp₀
  · intro p hp q hq
    obtain ⟨p₀, hp₀, hk, hc⟩ := hch p hp
    rw [hc, hk]
    exact h5 p₀ hp₀ q hq
  · intro p hp nm hnm
    obtain ⟨p₀, hp₀, _, hc⟩ := hch p hp
    rw [hc] at hnm
    exact h6 p₀ hp₀ nm hnm
  · intro q hq m hm
    show m ∈ (aupdate s.clients fd f).map Prod.fst
    rw [aupdate_keys]
    exact h7 q hq m hm

theorem Inv_sendData (s : ServerState) (fd : Nat) (msg : String) (h : Inv s) :
    Inv (sendData s fd msg) := by
  refine Inv_updateClient s fd _ ?_ h
  intro c
  by_cases hc : c.disconnected <;> simp [hc]

theorem Inv_broadcastTo (roster : List Nat) (s : ServerState) (msg : String)
    (h : Inv s) : Inv (broadcastTo s roster msg) := by
  induction roster generalizing s with
  | nil => exact h
  | cons m rest ih => exact ih (sendData s m msg) (Inv_sendData s m msg h)

theorem Inv_setDisconnected (s : ServerState) (fd : Nat) (h : Inv s) :
    Inv (setDisconnectedS s fd) :=
  Inv_updateClient s fd _ (fun c => rfl) h

theorem aupdate_append {α β : Type} [DecidableEq α] (a b : List (α × β)) (k : α)
    (f : β → β) : aupdate (a ++ b) k f = aupdate a k f ++ aupdate b k f := by
  simp [aupdate]

theorem Inv_acceptClient (s : ServerState) (fd : Nat) (h : Inv s) :
    Inv (acceptClient s fd) := by
  rw [acceptClient]
  by_cases hp : (alookup s.clients fd).isSome
  · rw [if_pos hp]
    exact h
  · rw [if_neg hp]
    have hfd : fd ∉ s.clients.map Prod.fst := by
      rw [← alookup_isSome_iff]
      simpa using hp
    obtain ⟨h1, h2, h3, h4, h5, h6, h7, h8⟩ := h
    refine ⟨?_, h2, ?_, h4, ?_, ?_, ?_, h8⟩
    · show ((s.clients ++ [(fd, newClient)]).map Prod.fst).Nodup
      rw [List.map_append]
      rw [List.nodup_append]
      refine ⟨h1, by simp, ?_⟩
      intro a ha hb
      simp at hb
      rw [hb] at ha
      exact hfd ha
    · intro p hp
      rcases List.mem_append.mp hp with hp | hp
      · exact h3 p hp
      · simp at hp
        rw [hp]
        exact List.nodup_nil
    · intro p hp q hq
      rcases List.mem_append.mp hp with hp | hp
      · exact h5 p hp q hq
      · simp at hp
        rw [hp]
        simp [newClient]
        intro hmem
        exact hfd (h7 q hq fd hmem)
    · intro p hp nm hnm
      rcases List.mem_append.mp hp with hp | hp
      · exact h6 p hp nm hnm
      · simp at hp
        rw [hp] at hnm
        simp [newClient] at hnm
    · intro q hq m hm
      show m ∈ (s.clients ++ [(fd, newClient)]).map Prod.fst
      rw [List.map_append]
      exact List.mem_append_left _ (h7 q hq m hm)

/-- Joining (creating the channel first when needed) preserves every
membership invariant. -/
theorem Inv_join_core (s : ServerState) (fd : Nat) (me : ClientState)
    (chName : String) (hme : alookup s.clients fd = some me) (h : Inv s) :
    Inv (joinChannel (createChannel s chName fd) fd chName) := by
  obtain ⟨h1, h2, h3, h4, h5, h6, h7, h8⟩ := h
  have hmeMem : (fd, me) ∈ s.clients := mem_of_alookup_eq_some _ _ hme
  have hfdKeys : fd ∈ s.clients.map Prod.fst := List.mem_map_of_mem _ hmeMem
  rcases hch : alookup s.channels chName with _ | ch
  · -- the channel does not exist: it is created, then joined
    have hchKeys : chName ∉ s.channels.map Prod.fst :=
      (alookup_eq_none_iff _ _).mp hch
    have hnotin : chName ∉ me.channels := fun hin =>
      hchKeys (h6 (fd, me) hmeMem chName hin)
    rw [createChannel_of_none fd hch]
    have hme1 : alookup
        ({ s with channels := s.channels ++ [(chName, newChannel fd)] } :
          ServerState).clients fd = some me := hme
    rw [joinChannel_of_not_mem hme1 hnotin]
    have hchans : (updateChannel
        (updateClient
          ({ s with channels := s.channels ++ [(chName, newChannel fd)] } :
            ServerState)
          fd (fun c => { c with channels := c.channels ++ [chName] }))
        chName (fun c => c.addClient fd)).channels =
        s.channels ++ [(chName, newChannel fd)] := by
      simp only [updateChannel, updateClient]
      rw [aupdate_append, aupdate_of_not_mem _ _ _ hchKeys]
      simp [aupdate, newChannel_addClient]
    have hclis : (updateChannel
        (updateClient
          ({ s with channels := s.channels ++ [(chName, newChannel fd)] } :
            ServerState)
          fd (fun c => { c with channels := c.channels ++ [chName] }))
        chName (fun c => c.addClient fd)).clients =
        aupdate s.clients fd
          (fun c => { c with channels := c.channels ++ [chName] }) := rfl
    refine ⟨?_, ?_, ?_, ?_, ?_, ?_, ?_, ?_⟩
    · rw [hclis, aupdate_keys]
      exact h1
    · rw [hchans, List.map_append, List.nodup_append]
      refine ⟨h2, by simp, ?_⟩
      intro a ha hb
      simp at hb
      rw [hb] at ha
      exact hchKeys ha
    · rw [hclis]
      intro p hp
      rcases mem_aupdate_cases h1 hme hp with rfl | ⟨hp, _⟩
      · simp only []
        rw [List.nodup_append]
        exact ⟨h3 (fd, me) hmeMem, by simp, by
          intro a ha hb
          simp at hb
          rw [hb] at ha
          exact hnotin ha⟩
      · exact h3 p hp
    · rw [hchans]
      intro q hq
      rcases List.mem_append.mp hq with hq | hq
      · exact h4 q hq
      · simp at hq
        rw [hq, newChannel_eq]
        simp
    · rw [hclis, hchans]
      intro p hp q hq
      rcases mem_aupdate_cases h1 hme hp with rfl | ⟨hp, hpne⟩ <;>
        rcases List.mem_append.mp hq with hq | hq
      · have hqne : q.1 ≠ chName := fun hh =>
          hchKeys (hh ▸ List.mem_map_of_mem Prod.fst hq)
        rw [show ((fd, { me with channels := me.channels ++ [chName] }) :
          Nat × ClientState).2.channels = me.channels ++ [chName] from rfl]
        rw [List.mem_append]
        constructor
        · intro hin
          rcases hin with hin | hin
          · exact (h5 (fd, me) hmeMem q hq).mp hin
          · simp at hin
            exact absurd hin hqne
        · intro hin
          exact Or.inl ((h5 (fd, me) hmeMem q hq).mpr hin)
      · simp at hq
        rw [hq, newChannel_eq]
        simp
      · exact h5 p hp q hq
      · simp at hq
        rw [hq, newChannel_eq]
        simp only []
        constructor
        · intro hin
          exact absurd (h6 p hp chName hin) hchKeys
        · intro hin
          simp at hin
          exact absurd hin hpne
    · rw [hclis, hchans]
      intro p hp nm hnm
      rw [List.map_append]
      rcases mem_aupdate_cases h1 hme hp with rfl | ⟨hp, _⟩
      · rw [show ((fd, { me with channels := me.channels ++ [chName] }) :
          Nat × ClientState).2.channels = me.channels ++ [chName] from rfl]
          at hnm
        rcases List.mem_append.mp hnm with hnm | hnm
        · exact List.mem_append_left _ (h6 (fd, me) hmeMem nm hnm)
        · simp at hnm
          rw [hnm]
          simp
      · exact List.mem_append_left _ (h6 p hp nm hnm)
    · rw [hclis, hchans]
      intro q hq m hm
      rw [aupdate_keys]
      rcases List.mem_append.mp hq with hq | hq
      · exact h7 q hq m hm
      · simp at hq
        rw [hq, newChannel_eq] at hm
        simp at hm
        rw [hm]
        exact hfdKeys
    · rw [hchans]
      intro q hq
      rcases List.mem_append.mp hq with hq | hq
      · exact h8 q hq
      · simp at hq
        rw [hq, newChannel_eq]
        simp
  · -- the channel exists
    have hchMem : (chName, ch) ∈ s.channels := mem_of_alookup_eq_some _ _ hch
    rw [createChannel_of_some fd hch]
    by_cases hmem : chName ∈ me.channels
    · rw [joinChannel_of_mem hme hmem]
      exact ⟨h1, h2, h3, h4, h5, h6, h7, h8⟩
    · have hfdR : fd ∉ ch.clients := fun hin =>
        hmem ((h5 (fd, me) hmeMem (chName, ch) hchMem).mpr hin)
      rw [joinChannel_of_not_mem hme hmem]
      have hadd : (fun c => ChannelState.addClient c fd) ch =
          { ch with clients := ch.clients ++ [fd] } := by
        simp [ChannelState.addClient, hfdR]
      have hchans : (updateChannel
          (updateClient s fd
            (fun c => { c with channels := c.channels ++ [chName] }))
          chName (fun c => c.addClient fd)).channels =
          aupdate s.channels chName (fun c => c.addClient fd) := rfl
      have hclis : (updateChannel
          (updateClient s fd
            (fun c => { c with channels := c.channels ++ [chName] }))
          chName (fun c => c.addClient fd)).clients =
          aupdate s.clients fd
            (fun c => { c with channels := c.channels ++ [chName] }) := rfl
      refine ⟨?_, ?_, ?_, ?_, ?_, ?_, ?_, ?_⟩
      · rw [hclis, aupdate_keys]
        exact h1
      · rw [hchans, aupdate_keys]
        exact h2
      · rw [hclis]
        intro p hp
        rcases mem_aupdate_cases h1 hme hp with rfl | ⟨hp, _⟩
        · simp only []
          rw [List.nodup_append]
          exact ⟨h3 (fd, me) hmeMem, by simp, by
            intro a ha hb
            simp at hb
            rw [hb] at ha
            exact hmem ha⟩
        · exact h3 p hp
      · rw [hchans]
        intro q hq
        rcases mem_aupdate_cases h2 hch hq with rfl | ⟨hq, _⟩
        · rw [show ((chName, (fun c => ChannelState.addClient c fd) ch) :
            String × ChannelState).2 = (fun c => ChannelState.addClient c fd) ch
            from rfl, hadd]
          rw [List.nodup_append]
          exact ⟨h4 (chName, ch) hchMem, by simp, by
            intro a ha hb
            simp at hb
            rw [hb] at ha
            exact hfdR ha⟩
        · exact h4 q hq
      · rw [hclis, hchans]
        intro p hp q hq
        rcases mem_aupdate_cases h1 hme hp with rfl | ⟨hp, hpne⟩ <;>
          rcases mem_aupdate_cases h2 hch hq with rfl | ⟨hq, hqne⟩
        · rw [show ((chName, (fun c => ChannelState.addClient c fd) ch) :
            String × ChannelState).2 = (fun c => ChannelState.addClient c fd) ch
            from rfl, hadd]
          simp [List.mem_append]
        · rw [List.mem_append]
          constructor
          · intro hin
            rcases hin with hin | hin
            · exact (h5 (fd, me) hmeMem q hq).mp hin
            · simp at hin
              exact absurd hin hqne
          · intro hin
            exact Or.inl ((h5 (fd, me) hmeMem q hq).mpr hin)
        · rw [show ((chName, (fun c => ChannelState.addClient c fd) ch) :
            String × ChannelState).2 = (fun c => ChannelState.addClient c fd) ch
            from rfl, hadd]
          rw [show ((chName, ({ ch with clients := ch.clients ++ [fd] } :
            ChannelState)) : String × ChannelState).2.clients =
            ch.clients ++ [fd] from rfl]
          rw [List.mem_append]
          constructor
          · intro hin
            exact Or.inl ((h5 p hp (chName, ch) hchMem).mp hin)
          · intro hin
            rcases hin with hin | hin
            · exact (h5 p hp (chName, ch) hchMem).mpr hin
            · simp at hin
              exact absurd hin hpne
        · exact h5 p hp q hq
      · rw [hclis, hchans]
        intro p hp nm hnm
        rw [aupdate_keys]
        rcases mem_aupdate_cases h1 hme hp with rfl | ⟨hp, _⟩
        · rw [show ((fd, { me with channels := me.channels ++ [chName] }) :
            Nat × ClientState).2.channels = me.channels ++ [chName] from rfl]
            at hnm
          rcases List.mem_append.mp hnm with hnm | hnm
          · exact h6 (fd, me) hmeMem nm hnm
          · simp at hnm
            rw [hnm]
            exact List.mem_map_of_mem Prod.fst hchMem
        · exact h6 p hp nm hnm
      · rw [hclis, hchans]
        intro q hq m hm
        rw [aupdate_keys]
        rcases mem_aupdate_cases h2 hch hq with rfl | ⟨hq, _⟩
        · rw [show ((chName, (fun c => ChannelState.addClient c fd) ch) :
            String × ChannelState).2 = (fun c => ChannelState.addClient c fd) ch
            from rfl, hadd] at hm
          rcases List.mem_append.mp hm with hm | hm
          · exact h7 (chName, ch) hchMem m hm
          · simp at hm
            rw [hm]
            exact hfdKeys
        · exact h7 q hq m hm
      · rw [hchans]
        intro q hq
        rcases mem_aupdate_cases h2 hch hq with rfl | ⟨hq, _⟩
        · rw [show ((chName, (fun c => ChannelState.addClient c fd) ch) :
            String × ChannelState).2 = (fun c => ChannelState.addClient c fd) ch
            from rfl, hadd]
          simp
        · exact h8 q hq

/-- A JOIN command (any parameters, any client) preserves the membership
invariants. -/
theorem Inv_handleJOIN (s : ServerState) (fd : Nat) (params : List String)
    (h : Inv s) : Inv (handleCommand s fd "JOIN" params) := by
  rcases hme : alookup s.clients fd with _ | me
  · simp only [handleCommand, hme]
    exact h
  · simp only [handleCommand, hme]
    by_cases hauth : me.authenticated = false
    · rw [if_pos (by simp [hauth])]
      exact Inv_sendData s fd _ h
    · rw [if_neg (by simp [hauth])]
      simp only [String.reduceEq, if_false, if_true, reduceIte]
      rw [handleJOIN]
      by_cases hlen : params.length < 1
      · rw [if_pos hlen]
        exact Inv_sendData s fd _ h
      · rw [if_neg hlen]
        by_cases hbad : (params.getD 0 "").toList.head? ≠ some '#'
        · rw [if_pos hbad]
          exact Inv_sendData s fd _ h
        · rw [if_neg hbad]
          simp only []
          have hcore : Inv (joinChannel (createChannel s (params.getD 0 "") fd)
              fd (params.getD 0 "")) :=
            Inv_join_core s fd me (params.getD 0 "") hme h
          have hb : Inv (broadcastTo
              (joinChannel (createChannel s (params.getD 0 "") fd) fd
                (params.getD 0 ""))
              ((alookup (joinChannel (createChannel s (params.getD 0 "") fd) fd
                (params.getD 0 "")).channels (params.getD 0 "")).getD
                  (newChannel fd)).clients
              (":" ++ me.nickname ++ "!" ++ me.username ++ "@host JOIN " ++
                params.getD 0 "")) :=
            Inv_broadcastTo _ _ _ hcore
          by_cases htop : ((alookup (joinChannel (createChannel s
              (params.getD 0 "") fd) fd (params.getD 0 "")).channels
              (params.getD 0 "")).getD (newChannel fd)).topic ≠ ""
          · rw [if_pos htop]
            exact Inv_sendData _ fd _ (Inv_sendData _ fd _ (Inv_sendData _ fd _ hb))
          · rw [if_neg htop]
            exact Inv_sendData _ fd _ (Inv_sendData _ fd _ (Inv_sendData _ fd _ hb))

/-! ## Invariant preservation through `Server::removeClient` -/

/-- `Inv` without the no-empty-channel clause: the state between
`leaveChannel` and the conditional `removeChannel` inside `quitStep`
satisfies only this weaker form. -/
def Inv0 (s : ServerState) : Prop :=
  (s.clients.map Prod.fst).Nodup ∧
  (s.channels.map Prod.fst).Nodup ∧
  (∀ p ∈ s.clients, p.2.channels.Nodup) ∧
  (∀ q ∈ s.channels, q.2.clients.Nodup) ∧
  (∀ p ∈ s.clients, ∀ q ∈ s.channels, (q.1 ∈ p.2.channels ↔ p.1 ∈ q.2.clients)) ∧
  (∀ p ∈ s.clients, ∀ nm ∈ p.2.channels, nm ∈ s.channels.map Prod.fst) ∧
  (∀ q ∈ s.channels, ∀ m ∈ q.2.clients, m ∈ s.clients.map Prod.fst)

theorem Inv0_of_Inv {s : ServerState} (h : Inv s) : Inv0 s :=
  ⟨h.1, h.2.1, h.2.2.1, h.2.2.2.1, h.2.2.2.2.1, h.2.2.2.2.2.1, h.2.2.2.2.2.2.1⟩

theorem Inv_of_Inv0 {s : ServerState} (h0 : Inv0 s)
    (hne : ∀ q ∈ s.channels, q.2.clients ≠ []) : Inv s :=
  ⟨h0.1, h0.2.1, h0.2.2.1, h0.2.2.2.1, h0.2.2.2.2.1, h0.2.2.2.2.2.1,
    h0.2.2.2.2.2.2, hne⟩

theorem keys_aerase_mem {α β : Type} [DecidableEq α] {m : List (α × β)}
    {k k' : α} (hk : k' ∈ m.map Prod.fst) (hne : k' ≠ k) :
    k' ∈ (aerase m k).map Prod.fst := by
  rcases List.mem_map.mp hk with ⟨p, hp, rfl⟩
  exact List.mem_map_of_mem _ (mem_aerase_of hp hne)

theorem leaveChannel_of_mem {s : ServerState} {fd : Nat} {c : ClientState}
    {name : String} (hc : alookup s.clients fd = some c)
    (hmem : name ∈ c.channels) :
    leaveChannel s fd name =
      updateChannel
        (updateClient s fd (fun c => { c with channels := c.channels.erase name }))
        name (fun ch => ch.removeClient fd) := by
  simp only [leaveChannel, hc]
  rw [if_pos hmem]

/-- Leaving an existing channel keeps every invariant except possibly the
no-empty-channel clause; the left channel's entry becomes
`ch.removeClient fd` and every other channel keeps its roster. -/
theorem Inv0_leave_core (s : ServerState) (fd : Nat) (c : ClientState)
    (name : String) (ch : ChannelState)
    (hc : alookup s.clients fd = some c) (hch : alookup s.channels name = some ch)
    (hmem : name ∈ c.channels) (h : Inv0 s) :
    Inv0 (leaveChannel s fd name) := by
  obtain ⟨h1, h2, h3, h4, h5, h6, h7⟩ := h
  have hcMem : (fd, c) ∈ s.clients := mem_of_alookup_eq_some _ _ hc
  have hchMem : (name, ch) ∈ s.channels := mem_of_alookup_eq_some _ _ hch
  rw [leaveChannel_of_mem hc hmem]
  have hchans : (updateChannel
      (updateClient s fd (fun c => { c with channels := c.channels.erase name }))
      name (fun ch => ch.removeClient fd)).channels =
      aupdate s.channels name (fun ch => ch.removeClient fd) := rfl
  have hclis : (updateChannel
      (updateClient s fd (fun c => { c with channels := c.channels.erase name }))
      name (fun ch => ch.removeClient fd)).clients =
      aupdate s.clients fd
        (fun c => { c with channels := c.channels.erase name }) := rfl
  refine ⟨?_, ?_, ?_, ?_, ?_, ?_, ?_⟩
  · rw [hclis, aupdate_keys]
    exact h1
  · rw [hchans, aupdate_keys]
    exact h2
  · rw [hclis]
    intro p hp
    rcases mem_aupdate_cases h1 hc hp with rfl | ⟨hp, _⟩
    · exact (h3 (fd, c) hcMem).erase name
    · exact h3 p hp
  · rw [hchans]
    intro q hq
    rcases mem_aupdate_cases h2 hch hq with rfl | ⟨hq, _⟩
    · exact (h4 (name, ch) hchMem).erase fd
    · exact h4 q hq
  · rw [hclis, hchans]
    intro p hp q hq
    rcases mem_aupdate_cases h1 hc hp with rfl | ⟨hp, hpne⟩ <;>
      rcases mem_aupdate_cases h2 hch hq with rfl | ⟨hq, hqne⟩
    · show name ∈ c.channels.erase name ↔ fd ∈ ch.clients.erase fd
      constructor
      · intro hin
        exact absurd hin ((h3 (fd, c) hcMem).not_mem_erase)
      · intro hin
        exact absurd hin ((h4 (name, ch) hchMem).not_mem_erase)
    · show q.1 ∈ c.channels.erase name ↔ fd ∈ q.2.clients
      constructor
      · intro hin
        exact (h5 (fd, c) hcMem q hq).mp (List.mem_of_mem_erase hin)
      · intro hin
        rw [List.mem_erase_of_ne hqne]
        exact (h5 (fd, c) hcMem q hq).mpr hin
    · show name ∈ p.2.channels ↔ p.1 ∈ ch.clients.erase fd
      constructor
      · intro hin
        rw [List.mem_erase_of_ne hpne]
        exact (h5 p hp (name, ch) hchMem).mp hin
      · intro hin
        exact (h5 p hp (name, ch) hchMem).mpr (List.mem_of_mem_erase hin)
    · exact h5 p hp q hq
  · rw [hclis, hchans]
    intro p hp nm hnm
    rw [aupdate_keys]
    rcases mem_aupdate_cases h1 hc hp with rfl | ⟨hp, _⟩
    · exact h6 (fd, c) hcMem nm (List.mem_of_mem_erase hnm)
    · exact h6 p hp nm hnm
  · rw [hclis, hchans]
    intro q hq m hm
    rw [aupdate_keys]
    rcases mem_aupdate_cases h2 hch hq with rfl | ⟨hq, _⟩
    · exact h7 (name, ch) hchMem m (List.mem_of_mem_erase hm)
    · exact h7 q hq m hm

/-- `sendData` to any descriptor leaves every client's channel list
unchanged. -/
theorem alookup_sendData_channels (s : ServerState) (g fd : Nat)
    (msg : String) :
    (alookup (sendData s g msg).clients fd).map ClientState.channels =
      (alookup s.clients fd).map ClientState.channels := by
  by_cases h : fd = g
  · subst h
    rw [alookup_sendData_self]
    cases alookup s.clients fd with
    | none => rfl
    | some c => by_cases hd : c.disconnected <;> simp [hd]
  · rw [alookup_sendData_ne _ _ _ _ h]

theorem alookup_broadcastTo_channels (r : List Nat) (s : ServerState)
    (msg : String) (fd : Nat) :
    (alookup (broadcastTo s r msg).clients fd).map ClientState.channels =
      (alookup s.clients fd).map ClientState.channels := by
  induction r generalizing s with
  | nil => rfl
  | cons m rest ih =>
    show (alookup (broadcastTo (sendData s m msg) rest msg).clients fd).map
      ClientState.channels = _
    rw [ih (sendData s m msg), alookup_sendData_channels]

/-- `removeChannel` on a channel with an empty roster does no destructor
work: it only erases the map entry. -/
theorem removeChannel_of_empty {s : ServerState} {name : String}
    {ch : ChannelState} (hch : alookup s.channels name = some ch)
    (hempty : ch.clients = []) :
    removeChannel s name = { s with channels := aerase s.channels name } := by
  simp only [removeChannel, hch, hempty, List.foldl_nil]

/-- Erasing a channel whose roster is empty (and whose neighbours all have
non-empty rosters) restores the full invariant from the weak one. -/
theorem Inv_removeChannel_empty (s : ServerState) (name : String)
    (ch : ChannelState) (hch : alookup s.channels name = some ch)
    (hempty : ch.clients = []) (h0 : Inv0 s)
    (hne : ∀ q ∈ s.channels, q.1 ≠ name → q.2.clients ≠ []) :
    Inv (removeChannel s name) := by
  obtain ⟨h1, h2, h3, h4, h5, h6, h7⟩ := h0
  have hchMem : (name, ch) ∈ s.channels := mem_of_alookup_eq_some _ _ hch
  rw [removeChannel_of_empty hch hempty]
  refine ⟨h1, aerase_keys_nodup _ _ h2, h3, ?_, ?_, ?_, ?_, ?_⟩
  · intro q hq
    exact h4 q (mem_aerase _ _ hq).1
  · intro p hp q hq
    exact h5 p hp q (mem_aerase _ _ hq).1
  · intro p hp nm hnm
    have hkeys := h6 p hp nm hnm
    have hnmne : nm ≠ name := by
      intro hh
      subst hh
      have hin : p.1 ∈ ch.clients := (h5 p hp (nm, ch) hchMem).mp hnm
      rw [hempty] at hin
      simp at hin
    exact keys_aerase_mem hkeys hnmne
  · intro q hq m hm
    exact h7 q (mem_aerase _ _ hq).1 m hm
  · intro q hq
    exact hne q (mem_aerase _ _ hq).1 (mem_aerase _ _ hq).2

/-- One iteration of the `removeClient` channel loop preserves the full
invariant. -/
theorem Inv_quitStep (fd : Nat) (msg : String) (acc : ServerState)
    (name : String) (h : Inv acc) : Inv (quitStep fd msg acc name) := by
  rcases hch : alookup acc.channels name with _ | ch
  · simp only [quitStep, hch]
    exact h
  · simp only [quitStep, hch]
    have hA1 : Inv (broadcastTo acc ch.clients msg) := Inv_broadcastTo _ _ _ h
    have hchA1 : alookup (broadcastTo acc ch.clients msg).channels name =
        some ch := by
      rw [broadcastTo_channels]
      exact hch
    rcases hc : alookup (broadcastTo acc ch.clients msg).clients fd with _ | c₁
    · have hA2 : leaveChannel (broadcastTo acc ch.clients msg) fd name =
          broadcastTo acc ch.clients msg := by
        simp only [leaveChannel, hc]
      rw [hA2, hchA1]
      simp only []
      rw [if_neg (hA1.2.2.2.2.2.2.2 (name, ch)
        (mem_of_alookup_eq_some _ _ hchA1))]
      exact hA1
    · by_cases hmem : name ∈ c₁.channels
      · have h0 : Inv0 (leaveChannel (broadcastTo acc ch.clients msg) fd
            name) :=
          Inv0_leave_core _ fd c₁ name ch hc hchA1 hmem (Inv0_of_Inv hA1)
        have hchans2 : (leaveChannel (broadcastTo acc ch.clients msg) fd
            name).channels =
            aupdate (broadcastTo acc ch.clients msg).channels name
              (fun ch => ch.removeClient fd) := by
          rw [leaveChannel_of_mem hc hmem]
          rfl
        have hch₂ : alookup (leaveChannel (broadcastTo acc ch.clients msg) fd
            name).channels name = some (ch.removeClient fd) := by
          rw [hchans2, alookup_aupdate_self, hchA1]
          rfl
        have hothers : ∀ q ∈ (leaveChannel (broadcastTo acc ch.clients msg)
            fd name).channels, q.1 ≠ name → q.2.clients ≠ [] := by
          intro q hq hqne
          rw [hchans2] at hq
          rcases mem_aupdate hq with ⟨p₀, hp₀, hqeq⟩
          by_cases hp : p₀.1 = name
          · rw [if_pos hp] at hqeq
            rw [hqeq] at hqne
            exact absurd hp hqne
          · rw [if_neg hp] at hqeq
            rw [hqeq]
            exact hA1.2.2.2.2.2.2.2 p₀ hp₀
        rw [hch₂]
        simp only []
        by_cases hemp : (ch.removeClient fd).clients = []
        · rw [if_pos hemp]
          exact Inv_removeChannel_empty _ name _ hch₂ hemp h0 hothers
        · rw [if_neg hemp]
          refine Inv_of_Inv0 h0 ?_
          intro q hq
          by_cases hqn : q.1 = name
          · rcases q with ⟨a, b⟩
            dsimp at hqn
            subst hqn
            have hqv : b = ch.removeClient fd :=
              entry_eq_of_alookup h0.2.1 hch₂ hq
            show b.clients ≠ []
            rw [hqv]
            exact hemp
          · exact hothers q hq hqn
      · have hA2 : leaveChannel (broadcastTo acc ch.clients msg) fd name =
            broadcastTo acc ch.clients msg := by
          simp only [leaveChannel, hc]
          rw [if_neg hmem]
        rw [hA2, hchA1]
        simp only []
        rw [if_neg (hA1.2.2.2.2.2.2.2 (name, ch)
          (mem_of_alookup_eq_some _ _ hchA1))]
        exact hA1

theorem Inv_quitLoop (fd : Nat) (msg : String) (l : List String)
    (s : ServerState) (h : Inv s) : Inv (l.foldl (quitStep fd msg) s) := by
  induction l generalizing s with
  | nil => exact h
  | cons n t ih => exact ih (quitStep fd msg s n) (Inv_quitStep fd msg s n h)

/-- One `quitStep` erases exactly the processed channel name from the
departing client's channel list. -/
theorem quitStep_channels (fd : Nat) (msg : String) (acc : ServerState)
    (name : String) (c : ClientState) (h : Inv acc)
    (hc : alookup acc.clients fd = some c) :
    ∃ c', alookup (quitStep fd msg acc name).clients fd = some c' ∧
      c'.channels = c.channels.erase name := by
  rcases hch : alookup acc.channels name with _ | ch
  · have hnotin : name ∉ c.channels := by
      intro hin
      have hkeys := h.2.2.2.2.2.1 (fd, c) (mem_of_alookup_eq_some _ _ hc)
        name hin
      exact (alookup_eq_none_iff _ _).mp hch hkeys
    refine ⟨c, ?_, (List.erase_of_not_mem hnotin).symm⟩
    simp only [quitStep, hch]
    exact hc
  · have hchMem : (name, ch) ∈ acc.channels := mem_of_alookup_eq_some _ _ hch
    have hmapc : (alookup (broadcastTo acc ch.clients msg).clients fd).map
        ClientState.channels = some c.channels := by
      rw [alookup_broadcastTo_channels, hc]
      rfl
    rcases hc1 : alookup (broadcastTo acc ch.clients msg).clients fd
      with _ | c₁
    · rw [hc1] at hmapc
      simp at hmapc
    · rw [hc1] at hmapc
      have hc1ch : c₁.channels = c.channels := by
        simpa using hmapc
      have hchA1 : alookup (broadcastTo acc ch.clients msg).channels name =
          some ch := by
        rw [broadcastTo_channels]
        exact hch
      simp only [quitStep, hch]
      by_cases hmem : name ∈ c₁.channels
      · have hlookA2 : alookup (leaveChannel (broadcastTo acc ch.clients msg)
            fd name).clients fd =
            some { c₁ with channels := c₁.channels.erase name } := by
          rw [leaveChannel_of_mem hc1 hmem]
          simp only [updateChannel, updateClient]
          rw [alookup_aupdate_self, hc1]
          rfl
        have hchans2 : (leaveChannel (broadcastTo acc ch.clients msg) fd
            name).channels =
            aupdate (broadcastTo acc ch.clients msg).channels name
              (fun ch => ch.removeClient fd) := by
          rw [leaveChannel_of_mem hc1 hmem]
          rfl
        have hch₂ : alookup (leaveChannel (broadcastTo acc ch.clients msg) fd
            name).channels name = some (ch.removeClient fd) := by
          rw [hchans2, alookup_aupdate_self, hchA1]
          rfl
        rw [hch₂]
        simp only []
        by_cases hemp : (ch.removeClient fd).clients = []
        · rw [if_pos hemp]
          rw [removeChannel_of_empty hch₂ hemp]
          exact ⟨_, hlookA2, by simp [hc1ch]⟩
        · rw [if_neg hemp]
          exact ⟨_, hlookA2, by simp [hc1ch]⟩
      · have hA2 : leaveChannel (broadcastTo acc ch.clients msg) fd name =
            broadcastTo acc ch.clients msg := by
          simp only [leaveChannel, hc1]
          rw [if_neg hmem]
        rw [hA2, hchA1]
        simp only []
        rw [if_neg (h.2.2.2.2.2.2.2 (name, ch) hchMem)]
        refine ⟨c₁, hc1, ?_⟩
        rw [hc1ch] at hmem ⊢
        exact (List.erase_of_not_mem hmem).symm

theorem quitLoop_channels (fd : Nat) (msg : String) :
    ∀ (l : List String) (acc : ServerState) (c : ClientState), Inv acc →
      alookup acc.clients fd = some c →
      ∃ c', alookup (l.foldl (quitStep fd msg) acc).clients fd = some c' ∧
        c'.channels = l.foldl (fun cs nm => cs.erase nm) c.channels := by
  intro l
  induction l with
  | nil =>
    intro acc c _ hc
    exact ⟨c, hc, rfl⟩
  | cons n t ih =>
    intro acc c h hc
    obtain ⟨c₁, hc₁, hch₁⟩ := quitStep_channels fd msg acc n c h hc
    obtain ⟨c', hc', hch'⟩ := ih (quitStep fd msg acc n) c₁
      (Inv_quitStep fd msg acc n h) hc₁
    refine ⟨c', hc', ?_⟩
    rw [hch', hch₁]
    rfl

/-- Erasing, in order, every element of a duplicate-free list from that
same list empties it. -/
theorem foldl_erase_self {α : Type} [DecidableEq α] :
    ∀ l : List α, l.Nodup → l.foldl (fun cs x => cs.erase x) l = [] := by
  intro l
  induction l with
  | nil => intro _; rfl
  | cons n t ih =>
    intro hnd
    show List.foldl (fun cs x => cs.erase x) ((n :: t).erase n) t = []
    rw [List.erase_cons_head]
    exact ih (List.nodup_cons.mp hnd).2

/-- Dropping a client whose channel list is already empty from the client
table preserves the invariant. -/
theorem Inv_dropClient (S : ServerState) (fd : Nat) (c' : ClientState)
    (h : Inv S) (hc' : alookup S.clients fd = some c')
    (hch : c'.channels = []) :
    Inv { S with clients := aerase S.clients fd } := by
  obtain ⟨h1, h2, h3, h4, h5, h6, h7, h8⟩ := h
  have hcMem : (fd, c') ∈ S.clients := mem_of_alookup_eq_some _ _ hc'
  refine ⟨aerase_keys_nodup _ _ h1, h2, ?_, h4, ?_, ?_, ?_, h8⟩
  · intro p hp
    exact h3 p (mem_aerase _ _ hp).1
  · intro p hp q hq
    exact h5 p (mem_aerase _ _ hp).1 q hq
  · intro p hp nm hnm
    exact h6 p (mem_aerase _ _ hp).1 nm hnm
  · intro q hq m hm
    have hmne : m ≠ fd := by
      intro hh
      have hq1 : q.1 ∈ c'.channels := (h5 (fd, c') hcMem q hq).mpr (hh ▸ hm)
      rw [hch] at hq1
      simp at hq1
    exact keys_aerase_mem (h7 q hq m hm) hmne

/-- `Server::removeClient` preserves every membership invariant, including
the collection of channels whose roster drains. -/
theorem Inv_removeClient (s : ServerState) (fd : Nat) (h : Inv s) :
    Inv (removeClient s fd) := by
  rcases hc : alookup s.clients fd with _ | c
  · simp only [removeClient, hc]
    exact h
  · have hnd : c.channels.Nodup :=
      h.2.2.1 (fd, c) (mem_of_alookup_eq_some _ _ hc)
    simp only [removeClient, hc]
    obtain ⟨c', hc', hch'⟩ := quitLoop_channels fd
      (":" ++ c.nickname ++ "!" ++ c.username ++
        "@host QUIT :Connection closed")
      c.channels s c h hc
    have hInv1 := Inv_quitLoop fd
      (":" ++ c.nickname ++ "!" ++ c.username ++
        "@host QUIT :Connection closed")
      c.channels s h
    have hempty : c'.channels = [] := by
      rw [hch']
      exact foldl_erase_self c.channels hnd
    rw [hc']
    simp only [Option.getD_some, hempty, List.foldl_nil]
    exact Inv_dropClient _ fd c' hInv1 hc' hempty

/-- Every event-level operation (accept, JOIN, disconnect) preserves the
membership invariants. -/
theorem Inv_applyOp (s : ServerState) (op : NetOp) (h : Inv s) :
    Inv (applyOp s op) := by
  cases op with
  | accept fd => exact Inv_acceptClient s fd h
  | join fd ps => exact Inv_handleJOIN s fd ps h
  | disconnect fd => exact Inv_removeClient s fd h

theorem Inv_applyOps (s : ServerState) (ops : List NetOp) (h : Inv s) :
    Inv (applyOps s ops) := by
  induction ops generalizing s with
  | nil => exact h
  | cons op t ih => exact ih (applyOp s op) (Inv_applyOp s op h)

/-- C2: starting from a well-formed server state, after any sequence of
accepted connections, JOIN commands and QUIT/disconnect removals (by any
clients, with any parameters), membership is bidirectional: a channel's
name is in a client's joined-channels list iff the client's descriptor is
in that channel's roster. -/
theorem C2_membership_bidirectional (s : ServerState) (ops : List NetOp)
    (h : Inv s) :
    ∀ p ∈ (applyOps s ops).clients, ∀ q ∈ (applyOps s ops).channels,
      (q.1 ∈ p.2.channels ↔ p.1 ∈ q.2.clients) :=
  (Inv_applyOps s ops h).2.2.2.2.1

theorem C2_membership_bidirectional_witness :
    ("#lobby" ∈ ({ cBobIn with
        outbox := [":alice!alice@host QUIT :Connection closed\r\n"] }
        : ClientState).channels ↔
      2 ∈ ({ lobbyChan with
        clients := [2], operators := [] } : ChannelState).clients) :=
  C2_membership_bidirectional lobbySrv [NetOp.disconnect 1]
    (by unfold Inv; decide)
    (2, { cBobIn with
      outbox := [":alice!alice@host QUIT :Connection closed\r\n"] })
    (by decide)
    ("#lobby", { lobbyChan with
      clients := [2], operators := [] })
    (by decide)

/-- C9: after any sequence of accepted connections, JOIN commands and
QUIT/disconnect removals applied to a well-formed state, no channel with
an empty roster remains in the registry (the last member's departure
removes the channel); and a subsequent JOIN of a `#`-name absent from the
registry by a live registered client installs a fresh channel whose joiner
is the sole roster member and the sole operator. -/
theorem C9_empty_channels_collected (s : ServerState) (ops : List NetOp)
    (h : Inv s) :
    (∀ q ∈ (applyOps s ops).channels, q.2.clients ≠ []) ∧
    (∀ fd me chName rest,
      alookup (applyOps s ops).clients fd = some me →
      me.authenticated = true → me.disconnected = false →
      chName.toList.head? = some '#' →
      alookup (applyOps s ops).channels chName = none →
      alookup (handleCommand (applyOps s ops) fd "JOIN"
          (chName :: rest)).channels chName = some (newChannel fd) ∧
        (newChannel fd).clients = [fd] ∧ (newChannel fd).operators = [fd]) := by
  have hInv := Inv_applyOps s ops h
  refine ⟨hInv.2.2.2.2.2.2.2, ?_⟩
  intro fd me chName rest hme hauth hdis hhash hnone
  have hnotin : chName ∉ me.channels := by
    intro hin
    have hkeys := hInv.2.2.2.2.2.1 (fd, me)
      (mem_of_alookup_eq_some _ _ hme) chName hin
    exact (alookup_eq_none_iff _ _).mp hnone hkeys
  refine ⟨(join_fresh_channel _ fd me chName rest hme hauth hhash hnone
    hnotin hdis).1, ?_, ?_⟩
  · rw [newChannel_eq]
  · rw [newChannel_eq]

theorem C9_empty_channels_collected_witness :
    0 < ({ lobbyChan with
      clients := [1] } : ChannelState).clients.length ∧
    (alookup (handleCommand (applyOps lobbySrv [NetOp.disconnect 2]) 1
        "JOIN" ("#side" :: [])).channels "#side" = some (newChannel 1) ∧
      (newChannel 1).clients = [1] ∧ (newChannel 1).operators = [1]) := by
  have h := C9_empty_channels_collected lobbySrv [NetOp.disconnect 2]
    (by unfold Inv; decide)
  refine ⟨?_, ?_⟩
  · exact List.length_pos.mpr
      (h.1 ("#lobby", { lobbyChan with
        clients := [1] }) (by decide))
  · exact h.2 1
      ({ cAliceIn with
        outbox := [":bob!bob@host QUIT :Connection closed\r\n"] })
      "#side" [] (by decide) (by decide) (by decide) (by decide) (by decide)

/-! ## C8: framing under arbitrary TCP segmentation -/

/-- A byte stream made of `\r\n`-terminated frames: each line followed by
its terminator, in order. -/
def frames : List (List Char) → List Char
  | [] => []
  | l :: ls => l ++ '\r' :: '\n' :: frames ls

/-- Inversion of `splitPair`: a successful split decomposes the input
around the first occurrence of the pair, and the prefix is pair-free. -/
theorem splitPair_eq_some {x y : Char} :
    ∀ {buf l r : List Char}, splitPair x y buf = some (l, r) →
      buf = l ++ x :: y :: r ∧ splitPair x y l = none := by
  intro buf
  induction buf with
  | nil =>
    intro l r h
    simp [splitPair_nil] at h
  | cons c rest ih =>
    intro l r h
    rw [splitPair_cons] at h
    by_cases hc : c = x ∧ rest.head? = some y
    · rw [if_pos hc] at h
      simp at h
      obtain ⟨rfl, rfl⟩ := h
      cases rest with
      | nil => simp at hc
      | cons d t =>
        obtain ⟨rfl, hd⟩ := hc
        simp at hd
        subst hd
        exact ⟨rfl, rfl⟩
    · rw [if_neg hc] at h
      rcases hsp : splitPair x y rest with _ | ⟨p1, p2⟩
      · rw [hsp] at h
        simp at h
      · rw [hsp] at h
        simp at h
        obtain ⟨rfl, rfl⟩ := h
        obtain ⟨hb, hn⟩ := ih hsp
        refine ⟨by rw [List.cons_append, ← hb], ?_⟩
        rw [splitPair_cons]
        have hcond : ¬ (c = x ∧ p1.head? = some y) := by
          intro hcc
          apply hc
          refine ⟨hcc.1, ?_⟩
          rw [hb]
          cases p1 with
          | nil => simp at hcc
          | cons d t => simpa using hcc.2
        rw [if_neg hcond, hn]
        rfl

theorem splitPair_none_mono {x y : Char} {t Z : List Char}
    (ht : splitPair x y t = none) (h : Z <+: t) : splitPair x y Z = none := by
  obtain ⟨u, rfl⟩ := h
  exact splitPair_none_of_append ht

theorem prefix_split {α : Type} {Z A B : List α} (h : Z <+: A ++ B) :
    Z <+: A ∨ ∃ Z₂, Z = A ++ Z₂ ∧ Z₂ <+: B := by
  rcases Nat.le_total Z.length A.length with hl | hl
  · left
    exact List.prefix_of_prefix_length_le h (List.prefix_append A B) hl
  · right
    have hA : A <+: Z :=
      List.prefix_of_prefix_length_le (List.prefix_append A B) h hl
    obtain ⟨Z₂, rfl⟩ := hA
    refine ⟨Z₂, rfl, ?_⟩
    obtain ⟨u, hu⟩ := h
    rw [List.append_assoc] at hu
    exact ⟨u, List.append_cancel_left hu⟩

theorem prefix_cons_cases {α : Type} {Z W : List α} {c : α}
    (h : Z <+: c :: W) : Z = [] ∨ ∃ Z', Z = c :: Z' ∧ Z' <+: W := by
  cases Z with
  | nil => exact Or.inl rfl
  | cons d Z' =>
    right
    rw [List.cons_prefix_cons] at h
    exact ⟨Z', by rw [h.1], h.2⟩

/-- Extraction walks through any leading block of complete pair-free
frames. -/
theorem extract_frames :
    ∀ (L : List (List Char)) (u : List Char),
      (∀ l ∈ L, splitPair '\r' '\n' l = none) →
      extractLines (frames L ++ u) =
        (L ++ (extractLines u).1, (extractLines u).2) := by
  intro L
  induction L with
  | nil =>
    intro u _
    simp [frames]
  | cons l ls ih =>
    intro u h
    have hre : frames (l :: ls) ++ u = l ++ '\r' :: '\n' :: (frames ls ++ u) := by
      simp [frames, List.append_assoc]
    have hsp : splitPair '\r' '\n' (l ++ '\r' :: '\n' :: (frames ls ++ u)) =
        some (l, frames ls ++ u) :=
      splitPair_append_pair (by decide) (frames ls ++ u)
        (h l (List.mem_cons_self _ _))
    rw [hre, extractLines_of_some hsp,
      ih u (fun x hx => h x (List.mem_cons_of_mem _ hx))]
    simp

/-- Specification of `extractLines`: the input is exactly the extracted
frames followed by the pair-free remainder, and every extracted line is
pair-free. -/
theorem extract_spec (buf : List Char) :
    buf = frames (extractLines buf).1 ++ (extractLines buf).2 ∧
    (∀ l ∈ (extractLines buf).1, splitPair '\r' '\n' l = none) ∧
    splitPair '\r' '\n' (extractLines buf).2 = none := by
  have key : ∀ (n : Nat) (b : List Char), b.length ≤ n →
      b = frames (extractLines b).1 ++ (extractLines b).2 ∧
      (∀ l ∈ (extractLines b).1, splitPair '\r' '\n' l = none) ∧
      splitPair '\r' '\n' (extractLines b).2 = none := by
    intro n
    induction n with
    | zero =>
      intro b hb
      have hb0 : b = [] := List.length_eq_zero.mp (Nat.le_zero.mp hb)
      subst hb0
      rw [extractLines_of_none (splitPair_nil _ _)]
      exact ⟨rfl, by simp, splitPair_nil _ _⟩
    | succ k ih =>
      intro b hb
      rcases hsp : splitPair '\r' '\n' b with _ | ⟨l, r⟩
      · rw [extractLines_of_none hsp]
        exact ⟨rfl, by simp, hsp⟩
      · obtain ⟨hbd, hln⟩ := splitPair_eq_some hsp
        have hrlen : r.length ≤ k := by
          have := splitPair_length hsp
          omega
        obtain ⟨ih1, ih2, ih3⟩ := ih r hrlen
        rw [extractLines_of_some hsp]
        refine ⟨?_, ?_, ih3⟩
        · show b = frames (l :: (extractLines r).1) ++ (extractLines r).2
          rw [hbd]
          conv_lhs => rw [ih1]
          simp [frames, List.append_assoc]
        · intro x hx
          rcases List.mem_cons.mp hx with rfl | hx
          · exact hln
          · exact ih2 x hx
  exact key buf.length buf le_rfl

/-- Along any prefix of a stream of bounded frames (every line at most
8191 bytes) with a bounded trailing part, the unconsumed remainder held by
`extractLines` never exceeds 8192 bytes — so the overflow guard never
fires. -/
theorem extract_tail_bound :
    ∀ (lines : List (List Char)) (t Z : List Char),
      (∀ l ∈ lines, splitPair '\r' '\n' l = none ∧ l.length ≤ 8191) →
      splitPair '\r' '\n' t = none → t.length ≤ 8192 →
      Z <+: frames lines ++ t → (extractLines Z).2.length ≤ 8192 := by
  intro lines
  induction lines with
  | nil =>
    intro t Z _ ht htl hZ
    rw [show frames [] ++ t = t from rfl] at hZ
    rw [extractLines_of_none (splitPair_none_mono ht hZ)]
    show Z.length ≤ 8192
    exact le_trans hZ.length_le htl
  | cons l ls ih =>
    intro t Z hl ht htl hZ
    have hshort : ∀ W : List Char, W <+: l ++ ['\r'] →
        (extractLines W).2.length ≤ 8192 := by
      intro W hW
      have hln : splitPair '\r' '\n' (l ++ ['\r']) = none :=
        splitPair_snoc_x (by decide) (hl l (List.mem_cons_self _ _)).1
      rw [extractLines_of_none (splitPair_none_mono hln hW)]
      show W.length ≤ 8192
      have h1 := hW.length_le
      have h2 := (hl l (List.mem_cons_self _ _)).2
      rw [List.length_append, List.length_singleton] at h1
      omega
    have hre : frames (l :: ls) ++ t =
        (l ++ ['\r']) ++ ('\n' :: (frames ls ++ t)) := by
      simp [frames, List.append_assoc]
    rw [hre] at hZ
    rcases prefix_split hZ with hZ1 | ⟨Z₂, rfl, hZ2⟩
    · exact hshort Z hZ1
    · rcases prefix_cons_cases hZ2 with rfl | ⟨Z₃, rfl, hZ3⟩
      · exact hshort _ (by simp)
      · have hZeq : (l ++ ['\r']) ++ '\n' :: Z₃ = l ++ '\r' :: '\n' :: Z₃ := by
          simp [List.append_assoc]
        have hsp : splitPair '\r' '\n' ((l ++ ['\r']) ++ '\n' :: Z₃) =
            some (l, Z₃) := by
          rw [hZeq]
          exact splitPair_append_pair (by decide) Z₃
            (hl l (List.mem_cons_self _ _)).1
        rw [extractLines_of_some hsp]
        show (extractLines Z₃).2.length ≤ 8192
        exact ih t Z₃ (fun x hx => hl x (List.mem_cons_of_mem _ hx)) ht htl hZ3

theorem parsedOf_append (a b : List (List Char)) :
    parsedOf (a ++ b) = parsedOf a ++ parsedOf b := by
  simp [parsedOf, List.filter_append, List.filterMap_append]

theorem dispatchCmds_append (s : ServerState) (fd : Nat)
    (a b : List (String × List String)) :
    dispatchCmds s fd (a ++ b) = dispatchCmds (dispatchCmds s fd a) fd b := by
  simp [dispatchCmds, List.foldl_append]

/-- The canonical run: feeding any segmentation of the remaining stream on
top of an already-consumed prefix `Z` lands at the canonical final state,
buffer and command sequence. -/
theorem feedSegs_eq_whole (s : ServerState) (fd : Nat)
    (lines : List (List Char)) (t : List Char)
    (hl : ∀ l ∈ lines, splitPair '\r' '\n' l = none ∧ l.length ≤ 8191)
    (ht : splitPair '\r' '\n' t = none) (htl : t.length ≤ 8192) :
    ∀ (segs : List (List Char)) (Z : List Char),
      Z ++ segs.flatten = frames lines ++ t →
      feedSegs (dispatchCmds s fd (parsedOf (extractLines Z).1)) fd
          (extractLines Z).2 (parsedOf (extractLines Z).1) segs =
        (dispatchCmds s fd (parsedOf lines), t, parsedOf lines) := by
  intro segs
  induction segs with
  | nil =>
    intro Z hZ
    rw [List.flatten_nil, List.append_nil] at hZ
    have hext : extractLines Z = (lines, t) := by
      rw [hZ, extract_frames lines t (fun x hx => (hl x hx).1),
        extractLines_of_none ht]
      simp
    rw [feedSegs, hext]
  | cons a rest ih =>
    intro Z hZ
    obtain ⟨hZdec, hZlines, _⟩ := extract_spec Z
    have hZa : extractLines (Z ++ a) =
        ((extractLines Z).1 ++ (extractLines ((extractLines Z).2 ++ a)).1,
          (extractLines ((extractLines Z).2 ++ a)).2) := by
      conv_lhs => rw [hZdec, List.append_assoc]
      exact extract_frames (extractLines Z).1 ((extractLines Z).2 ++ a)
        hZlines
    have hZa_pref : (Z ++ a) <+: frames lines ++ t := by
      refine ⟨rest.flatten, ?_⟩
      rw [← hZ]
      simp [List.flatten_cons, List.append_assoc]
    have hbound := extract_tail_bound lines t (Z ++ a) hl ht htl hZa_pref
    rw [hZa] at hbound
    simp only [] at hbound
    have hb' : ¬ ((extractLines ((extractLines Z).2 ++ a)).2.length > 8192) :=
      by omega
    have hp : processData (dispatchCmds s fd (parsedOf (extractLines Z).1))
        fd ((extractLines Z).2 ++ a) =
        (dispatchCmds s fd
            (parsedOf (extractLines Z).1 ++
              parsedOf (extractLines ((extractLines Z).2 ++ a)).1),
          (extractLines ((extractLines Z).2 ++ a)).2,
          parsedOf (extractLines ((extractLines Z).2 ++ a)).1) := by
      rw [processData]
      rw [if_neg hb', ← dispatchCmds_append]
    rw [feedSegs, hp]
    simp only []
    have hflat : (Z ++ a) ++ rest.flatten = frames lines ++ t := by
      rw [← hZ]
      simp [List.flatten_cons, List.append_assoc]
    have hih := ih (Z ++ a) hflat
    rw [hZa] at hih
    simp only [] at hih
    rw [parsedOf_append] at hih
    exact hih

/-- C8 (amended): for a stream of `\r\n`-terminated frames whose lines are
each at most 8191 bytes (so that no partial frame can trip the 8192-byte
overflow guard mid-line) followed by a pair-free trailing part of at most
8192 bytes, every segmentation of the stream fed through the read path
produces the same result as feeding the whole stream at once: the same
final state, the same parsed `(command, parameters)` sequence (empty lines
skipped), and the trailing partial frame left in the buffer. -/
theorem C8_segmentation_invariance (s : ServerState) (fd : Nat)
    (lines : List (List Char)) (t : List Char) (segs : List (List Char))
    (hl : ∀ l ∈ lines, splitPair '\r' '\n' l = none ∧ l.length ≤ 8191)
    (ht : splitPair '\r' '\n' t = none) (htl : t.length ≤ 8192)
    (hs : segs.flatten = frames lines ++ t) :
    feedSegs s fd [] [] segs = feedSegs s fd [] [] [frames lines ++ t] ∧
    feedSegs s fd [] [] segs =
      (dispatchCmds s fd (parsedOf lines), t, parsedOf lines) := by
  have hmain : ∀ gs : List (List Char), gs.flatten = frames lines ++ t →
      feedSegs s fd [] [] gs =
        (dispatchCmds s fd (parsedOf lines), t, parsedOf lines) := by
    intro gs hgs
    have h0 : extractLines [] = ([], []) :=
      extractLines_of_none (splitPair_nil _ _)
    have hcan := feedSegs_eq_whole s fd lines t hl ht htl gs []
      (by rw [List.nil_append]; exact hgs)
    rw [h0] at hcan
    exact hcan
  have h1 := hmain segs hs
  have h2 := hmain [frames lines ++ t] (by simp)
  exact ⟨h1.trans h2.symm, h1⟩

theorem C8_segmentation_invariance_witness :
    feedSegs regSrv 1 [] [] [['P'], ['I', 'N', 'G', '\r'], ['\n']] =
      feedSegs regSrv 1 [] [] [frames [['P', 'I', 'N', 'G']] ++ []] ∧
    feedSegs regSrv 1 [] [] [['P'], ['I', 'N', 'G', '\r'], ['\n']] =
      (dispatchCmds regSrv 1 (parsedOf [['P', 'I', 'N', 'G']]), [],
        parsedOf [['P', 'I', 'N', 'G']]) :=
  C8_segmentation_invariance regSrv 1 [['P', 'I', 'N', 'G']] []
    [['P'], ['I', 'N', 'G', '\r'], ['\n']]
    (by decide) (by decide) (by decide) (by decide)

theorem dropWhile_replicate_pos {α : Type} (p : α → Bool) (a : α)
    (hp : p a = true) :
    ∀ n : Nat, List.dropWhile p (List.replicate n a) = [] := by
  intro n
  induction n with
  | zero => rfl
  | succ k ih =>
    rw [List.replicate_succ, List.dropWhile_cons]
    simp [hp, ih]

theorem replicate_head? {α : Type} (a : α) {n : Nat} (hn : 0 < n) :
    (List.replicate n a).head? = some a := by
  obtain ⟨m, rfl⟩ : ∃ m, n = m + 1 := ⟨n - 1, by omega⟩
  rw [List.replicate_succ]
  rfl

theorem replicate_isEmpty_false {α : Type} (a : α) {n : Nat} (hn : 0 < n) :
    (List.replicate n a).isEmpty = false := by
  obtain ⟨m, rfl⟩ : ∃ m, n = m + 1 := ⟨n - 1, by omega⟩
  rw [List.replicate_succ]
  rfl

/-- Parsing a line made of `n` letters `a`: no prefix, no parameters, the
command is the upper-cased line. -/
theorem parseLine_replicate_a {n : Nat} (hn : 0 < n) :
    parseLine (List.replicate n 'a') =
      some (String.mk (List.replicate n (upChar 'a')), []) := by
  have hhead : (List.replicate n 'a').head? = some 'a' := replicate_head? _ hn
  have hdrop : List.dropWhile (fun c => !(c == ' ')) (List.replicate n 'a') =
      [] := dropWhile_replicate_pos _ _ (by decide) n
  simp only [parseLine, hhead]
  rw [if_neg (by decide)]
  simp only []
  rw [hdrop, if_pos rfl, List.map_replicate]

theorem parsedOf_singleton {l : List Char} {p : String × List String}
    (hne : l.isEmpty = false) (hp : parseLine l = some p) :
    parsedOf [l] = [p] := by
  simp [parsedOf, hne, hp]

/-- C8 counterexample: a complete 8194-byte frame (8192 command bytes plus
`\r\n`) delivered in one piece parses to one command, but delivered with
the final `\n` in its own segment the 8193-byte partial buffer trips the
overflow guard, the buffer is discarded, and no command is parsed. -/
theorem C8_counterexample_split_inside_frame :
    (feedSegs regSrv 1 [] []
        [List.replicate 8192 'a' ++ ['\r'], ['\n']]).2.2 = [] ∧
    (feedSegs regSrv 1 [] []
        [List.replicate 8192 'a' ++ ['\r', '\n']]).2.2 =
      [(String.mk (List.replicate 8192 (upChar 'a')), [])] := by
  have hnone : splitPair '\r' '\n' (List.replicate 8192 'a') = none :=
    splitPair_replicate_none 'a' (by decide) 8192
  constructor
  · have hnone1 : splitPair '\r' '\n' (List.replicate 8192 'a' ++ ['\r']) =
        none := splitPair_snoc_x (by decide) hnone
    have hlen1 : (List.replicate 8192 'a' ++ ['\r']).length > 8192 := by
      rw [List.length_append, List.length_replicate]
      simp
    have hp1 : processData regSrv 1 (List.replicate 8192 'a' ++ ['\r']) =
        (sendData regSrv 1 "ERROR :Client exceeded buffer size limit",
          [], []) := by
      rw [processData, extractLines_of_none hnone1]
      simp only [parsedOf, List.filter_nil, List.filterMap_nil, dispatchCmds,
        List.foldl_nil]
      rw [if_pos hlen1]
    have hp2 : processData
        (sendData regSrv 1 "ERROR :Client exceeded buffer size limit") 1
        ['\n'] =
        (sendData regSrv 1 "ERROR :Client exceeded buffer size limit",
          ['\n'], []) := by
      rw [processData, extractLines_of_none (by decide)]
      simp only [parsedOf, List.filter_nil, List.filterMap_nil, dispatchCmds,
        List.foldl_nil]
      rw [if_neg (by decide)]
    rw [feedSegs, List.nil_append, hp1]
    simp only []
    rw [feedSegs, List.nil_append, hp2]
    simp only []
    rw [feedSegs]
    rfl
  · have hsp : splitPair '\r' '\n'
        (List.replicate 8192 'a' ++ ['\r', '\n']) =
        some (List.replicate 8192 'a', []) :=
      splitPair_append_pair (by decide) [] hnone
    have hext : extractLines (List.replicate 8192 'a' ++ ['\r', '\n']) =
        ([List.replicate 8192 'a'], []) := by
      rw [extractLines_of_some hsp,
        extractLines_of_none (splitPair_nil _ _)]
    have hcmds : parsedOf [List.replicate 8192 'a'] =
        [(String.mk (List.replicate 8192 (upChar 'a')), [])] :=
      parsedOf_singleton (replicate_isEmpty_false _ (by omega))
        (parseLine_replicate_a (by omega))
    have hp : processData regSrv 1
        (List.replicate 8192 'a' ++ ['\r', '\n']) =
        (dispatchCmds regSrv 1
            [(String.mk (List.replicate 8192 (upChar 'a')), [])],
          [], [(String.mk (List.replicate 8192 (upChar 'a')), [])]) := by
      rw [processData, hext]
      simp only [hcmds]
      rw [if_neg (by decide)]
    rw [feedSegs, List.nil_append, hp]
    simp only []
    rw [feedSegs]
    rfl
